import Mathlib

/-!
Verification of the progressive streaming audio player.

The development shallowly embeds the JavaScript sources:
* the container size patchers (AiffHeaderPatcher, WavHeaderPatcher),
* the manual AIFF PCM codec (AiffParser: parseExtended, parseHeader, decode),
* the streaming players (StreamPlayer, GenericPlayer, AiffManualPlayer),
* the base player with its heartbeat monitor (BasePlayer), and
* the differential chunk scheduler of the prototype (scheduleNewSegment).

Bytes are modelled as lists of natural numbers below 256.  JavaScript
DataView reads are modelled as total functions returning 0 out of range;
every read exercised by the theorems is in range.  DataView writes, which
throw a RangeError out of range, are modelled with Option.  JavaScript
doubles are modelled by the rationals; every numeric fact proved here
involves only values on which double arithmetic is exact or whose exact
value is what the corresponding claim is about.
-/

namespace StreamAudio

/-! ### DataView primitives -/

/-- Model of DataView.getUint8: reads one byte, 0 when out of range
(all reads performed by the theorems below are in range). -/
def getUint8 (b : List Nat) (i : Nat) : Nat := b.getD i 0

/-- Model of DataView.getUint16 with big-endian flag. -/
def getUint16BE (b : List Nat) (i : Nat) : Nat :=
  getUint8 b i * 256 + getUint8 b (i + 1)

/-- Model of DataView.getUint32 with big-endian flag. -/
def getUint32BE (b : List Nat) (i : Nat) : Nat :=
  ((getUint8 b i * 256 + getUint8 b (i + 1)) * 256 + getUint8 b (i + 2)) * 256
    + getUint8 b (i + 3)

/-- Model of DataView.getUint32 with little-endian flag. -/
def getUint32LE (b : List Nat) (i : Nat) : Nat :=
  ((getUint8 b (i + 3) * 256 + getUint8 b (i + 2)) * 256 + getUint8 b (i + 1)) * 256
    + getUint8 b i

/-- Model of DataView.getInt16 with big-endian flag: two bytes as a
signed 16-bit integer. -/
def getInt16BE (b : List Nat) (i : Nat) : Int :=
  let v := getUint16BE b i
  if v < 32768 then (v : Int) else (v : Int) - 65536

/-- Model of DataView.getInt8: one byte as a signed 8-bit integer. -/
def getInt8 (b : List Nat) (i : Nat) : Int :=
  let v := getUint8 b i
  if v < 128 then (v : Int) else (v : Int) - 256

/-- JavaScript ToUint32 conversion applied by DataView.setUint32 to its
value argument. -/
def toUint32 (v : Int) : Nat := (v.emod 4294967296).toNat

/-- Model of DataView.setUint32 with big-endian flag: writes four bytes,
or fails (RangeError) when the last byte would fall outside the view. -/
def setUint32BE (b : List Nat) (off : Nat) (v : Int) : Option (List Nat) :=
  if off + 4 ≤ b.length then
    let u := toUint32 v
    some ((((b.set off (u / 16777216 % 256)).set (off + 1) (u / 65536 % 256)).set
      (off + 2) (u / 256 % 256)).set (off + 3) (u % 256))
  else none

/-- Model of DataView.setUint32 with little-endian flag. -/
def setUint32LE (b : List Nat) (off : Nat) (v : Int) : Option (List Nat) :=
  if off + 4 ≤ b.length then
    let u := toUint32 v
    some ((((b.set (off + 3) (u / 16777216 % 256)).set (off + 2) (u / 65536 % 256)).set
      (off + 1) (u / 256 % 256)).set off (u % 256))
  else none

/-! ### The container size patchers

`AiffHeaderPatcher.patch` and `WavHeaderPatcher.patch` rewrite, in place,
the outer file-size field at offset 4 and then scan chunks from offset 12
looking for the sample-data chunk (SSND for AIFF, data for WAV), patching
its size field and stopping.  The patcher getAscii helper turns `len`
bytes into a string; string comparison is modelled as comparison of the
lists of character codes. -/

/-- Character codes of the patcher getAscii helper (no filtering). -/
def getAscii (b : List Nat) (off len : Nat) : List Nat :=
  (List.range len).map (fun i => getUint8 b (off + i))

/-- Character codes of the string SSND. -/
def ssndId : List Nat := [83, 83, 78, 68]

/-- Character codes of the string data. -/
def dataId : List Nat := [100, 97, 116, 97]

/-- The chunk scan of AiffHeaderPatcher.patch: the offset at which the
scan reaches the SSND chunk, if it does.  Mirrors the while loop
(reads the big-endian size, advances by 8 + size, no pad byte). -/
def AiffHeaderPatcher.findSSND (b : List Nat) (offset : Nat) : Option Nat :=
  if h : offset < b.length - 8 then
    let chunkSize := getUint32BE b (offset + 4)
    if getAscii b offset 4 = ssndId then some offset
    else AiffHeaderPatcher.findSSND b (offset + 8 + chunkSize)
  else none
termination_by b.length - offset
decreasing_by omega

/-- The writing form of the AiffHeaderPatcher chunk scan: patches the
SSND size field to totalLength - (offset + 8) and stops. -/
def AiffHeaderPatcher.patchLoop (b : List Nat) (totalLength offset : Nat) :
    Option (List Nat) :=
  if h : offset < b.length - 8 then
    let chunkSize := getUint32BE b (offset + 4)
    if getAscii b offset 4 = ssndId then
      setUint32BE b (offset + 4) ((totalLength : Int) - ((offset : Int) + 8))
    else AiffHeaderPatcher.patchLoop b totalLength (offset + 8 + chunkSize)
  else some b
termination_by b.length - offset
decreasing_by omega

/-- AiffHeaderPatcher.patch: writes the big-endian outer size field at
offset 4, then scans chunks from offset 12 for SSND. -/
def AiffHeaderPatcher.patch (b : List Nat) (totalLength : Nat) : Option (List Nat) :=
  (setUint32BE b 4 ((totalLength : Int) - 8)).bind
    (fun b2 => AiffHeaderPatcher.patchLoop b2 totalLength 12)

/-- The chunk scan of WavHeaderPatcher.patch: the offset at which the
scan reaches the data chunk, if it does (little-endian sizes). -/
def WavHeaderPatcher.findData (b : List Nat) (offset : Nat) : Option Nat :=
  if h : offset < b.length - 8 then
    if getAscii b offset 4 = dataId then some offset
    else
      let chunkSize := getUint32LE b (offset + 4)
      WavHeaderPatcher.findData b (offset + 8 + chunkSize)
  else none
termination_by b.length - offset
decreasing_by omega

/-- The writing form of the WavHeaderPatcher chunk scan. -/
def WavHeaderPatcher.patchLoop (b : List Nat) (totalLength offset : Nat) :
    Option (List Nat) :=
  if h : offset < b.length - 8 then
    if getAscii b offset 4 = dataId then
      setUint32LE b (offset + 4) ((totalLength : Int) - ((offset : Int) + 8))
    else
      let chunkSize := getUint32LE b (offset + 4)
      WavHeaderPatcher.patchLoop b totalLength (offset + 8 + chunkSize)
  else some b
termination_by b.length - offset
decreasing_by omega

/-- WavHeaderPatcher.patch: writes the little-endian outer size field at
offset 4, then scans chunks from offset 12 for data. -/
def WavHeaderPatcher.patch (b : List Nat) (totalLength : Nat) : Option (List Nat) :=
  (setUint32LE b 4 ((totalLength : Int) - 8)).bind
    (fun b2 => WavHeaderPatcher.patchLoop b2 totalLength 12)

/-! ### The manual AIFF codec (AiffParser)

The parser getAscii helper differs from the patcher one: it keeps only
printable character codes (between 32 and 126). -/

/-- Character codes kept by the AiffParser getAscii helper. -/
def getAsciiF (b : List Nat) (off len : Nat) : List Nat :=
  ((List.range len).map (fun i => getUint8 b (off + i))).filter
    (fun c => 31 < c && c < 127)

/-- Character codes of the string FORM. -/
def formId : List Nat := [70, 79, 82, 77]

/-- Character codes of the string AIFF. -/
def aiffId : List Nat := [65, 73, 70, 70]

/-- Character codes of the string COMM. -/
def commId : List Nat := [67, 79, 77, 77]

/-- AiffParser.parseExtended: decodes the 10-byte 80-bit extended float at
the given offset.  The sign is bit 15 of the 2-byte field, the biased
exponent its low 15 bits; the mantissa halves are weighted by 2 ^ (-32)
and 2 ^ (-64); a biased exponent of 0 yields 0.  (The double arithmetic
performed by the JavaScript is exact on the inputs considered here.) -/
def AiffParser.parseExtended (b : List Nat) (offset : Nat) : ℚ :=
  let exponent := getUint16BE b offset
  let mantissaHigh := getUint32BE b (offset + 2)
  let mantissaLow := getUint32BE b (offset + 6)
  let sign : ℚ := if exponent &&& 32768 ≠ 0 then -1 else 1
  let exp : Int := ((exponent &&& 32767 : Nat) : Int) - 16383
  let mantissa : ℚ := (mantissaHigh : ℚ) * (2 : ℚ) ^ (-32 : Int)
    + (mantissaLow : ℚ) * (2 : ℚ) ^ (-64 : Int)
  if exp = -16383 then 0
  else sign * mantissa * (2 : ℚ) ^ exp

/-- The per-sample byte advance of the decode loop: 2 for 16-bit, 3 for
24-bit, and 1 in the remaining (8-bit) branch. -/
def sampleWidth (bitDepth : Nat) : Nat :=
  if bitDepth = 16 then 2 else if bitDepth = 24 then 3 else 1

/-- The loop body of AiffParser.decode: one sample read at `ptr`.
The 16-bit branch is getInt16 big-endian normalized by 32768.  The
24-bit branch combines the three bytes with shifts into a signed 32-bit
value and arithmetically shifts right by 8 (floor division by 256),
normalized by 8388608.  The remaining branch is getInt8 normalized by
128. -/
def readSample (bitDepth : Nat) (b : List Nat) (ptr : Nat) : ℚ :=
  if bitDepth = 16 then
    ((getInt16BE b ptr : Int) : ℚ) / 32768
  else if bitDepth = 24 then
    let b1 := getUint8 b ptr
    let b2 := getUint8 b (ptr + 1)
    let b3 := getUint8 b (ptr + 2)
    -- (b1 << 24) | (b2 << 16) | (b3 << 8) as a signed 32-bit value
    let v := b1 * 16777216 + b2 * 65536 + b3 * 256
    let s32 : Int := if v < 2147483648 then (v : Int) else (v : Int) - 4294967296
    -- s32 >> 8 is an arithmetic shift, i.e. floor division by 256
    ((s32.fdiv 256 : Int) : ℚ) / 8388608
  else
    ((getInt8 b ptr : Int) : ℚ) / 128

/-- One frame of the decode loop: one sample per channel, read at
consecutive positions of the running byte pointer. -/
def decodeFrame (bitDepth numChannels : Nat) (b : List Nat) (ptr : Nat) : List ℚ :=
  (List.range numChannels).map
    (fun ch => readSample bitDepth b (ptr + ch * sampleWidth bitDepth))

/-- The outer decode loop: `n` frames starting at byte pointer `ptr`;
the pointer advances by numChannels samples per frame. -/
def decodeFrames (bitDepth numChannels : Nat) (b : List Nat) :
    Nat → Nat → List (List ℚ)
  | _, 0 => []
  | ptr, n + 1 =>
    decodeFrame bitDepth numChannels b ptr ::
      decodeFrames bitDepth numChannels b (ptr + numChannels * sampleWidth bitDepth) n

/-- AiffParser.decode: converts raw big-endian sample bytes into planar
per-channel normalized samples.  numSamples = byteLength / bytesPerSample,
numFrames = numSamples / numChannels; plane ch collects the sample of
channel ch from every frame, in order. -/
def AiffParser.decode (bitDepth numChannels : Nat) (raw : List Nat) :
    List (List ℚ) :=
  let numSamples := raw.length / (bitDepth / 8)
  let numFrames := numSamples / numChannels
  (List.range numChannels).map
    (fun ch => (decodeFrames bitDepth numChannels raw 0 numFrames).map
      (fun frame => frame.getD ch 0))

/-- The container descriptor built by AiffParser.parseHeader.  The COMM
fields are read with getInt16 and therefore carried as integers; the
sample rate is the decoded extended float; dataSize is chunkSize - 8 as a
JavaScript number. -/
structure AiffParser where
  headerParsed : Bool
  numChannels : Int
  sampleRate : ℚ
  bitDepth : Int
  dataOffset : Nat
  dataSize : Int
  frameSize : ℚ
deriving DecidableEq

/-- The AiffParser constructor defaults. -/
def AiffParser.init : AiffParser :=
  { headerParsed := false, numChannels := 2, sampleRate := 44100,
    bitDepth := 16, dataOffset := 0, dataSize := 0, frameSize := 4 }

/-- The chunk-scanning loop of AiffParser.parseHeader.  Each chunk is
[4-byte id][4-byte big-endian size][payload], with a pad byte after an
odd-sized payload.  The COMM chunk fills the descriptor fields, the SSND
chunk fixes the data offset and size; once both have been seen the
header is marked parsed and the frame size recorded.  Leaving the loop
without both leaves headerParsed false (a retry condition). -/
def AiffParser.parseHeaderLoop (b : List Nat) (p : AiffParser)
    (foundComm foundSsnd : Bool) (offset : Nat) : AiffParser :=
  if h : offset < b.length then
    if b.length < offset + 8 then p  -- incomplete chunk header
    else
      let chunkId := getAsciiF b offset 4
      let chunkSize := getUint32BE b (offset + 4)
      if chunkId = commId ∧ b.length < offset + 26 then p  -- incomplete COMM
      else
        let p1 :=
          if chunkId = commId then
            { p with numChannels := getInt16BE b (offset + 8),
                     bitDepth := getInt16BE b (offset + 14),
                     sampleRate := AiffParser.parseExtended b (offset + 16) }
          else if chunkId = ssndId then
            { p with dataOffset := offset + 8 + 8,
                     dataSize := (chunkSize : Int) - 8 }
          else p
        let fc := foundComm || decide (chunkId = commId)
        let fs := foundSsnd || decide (chunkId = ssndId)
        let offset2 := offset + 8 + chunkSize + (if chunkSize % 2 = 1 then 1 else 0)
        if fc && fs then
          { p1 with headerParsed := true,
                    frameSize := (p1.numChannels : ℚ) * ((p1.bitDepth : ℚ) / 8) }
        else AiffParser.parseHeaderLoop b p1 fc fs offset2
  else p
termination_by b.length - offset
decreasing_by omega

/-- AiffParser.parseHeader: validates the FORM and AIFF signatures and
scans chunks from offset 12.  Success is recorded in headerParsed. -/
def AiffParser.parseHeader (p : AiffParser) (b : List Nat) : AiffParser :=
  if p.headerParsed then p
  else if getAsciiF b 0 4 ≠ formId then p
  else if getAsciiF b 8 4 ≠ aiffId then p
  else AiffParser.parseHeaderLoop b p false false 12

/-! ### The differential chunk scheduler (prototype player)

State of the playChunkedAudio loop: the output-clock time at which the
next unit may start, the number of frames already scheduled, and the
list of scheduled source nodes (sourceNodes). -/

/-- One scheduled output unit: the slice of frames it carries and the
output-clock time at which it was scheduled to start. -/
structure ScheduledUnit where
  startFrame : Nat
  frameCount : Nat
  scheduleTime : ℚ
deriving DecidableEq

/-- The mutable scheduling state of the prototype player. -/
structure SchedulerState where
  nextStartTime : ℚ
  lastDecodedSample : Nat
  sourceNodes : List ScheduledUnit
deriving DecidableEq

/-- Scheduler state at initAudio. -/
def initialSchedulerState : SchedulerState :=
  { nextStartTime := 0, lastDecodedSample := 0, sourceNodes := [] }

/-- scheduleNewSegment: if there are new frames past startSampleIndex,
builds an output unit from exactly the slice [startSampleIndex,
bufferLength), schedules it at max(currentTime, nextStartTime), appends
the node to sourceNodes (without stopping previous nodes), and advances
nextStartTime by the unit duration (frames / sampleRate). -/
def scheduleNewSegment (st : SchedulerState) (currentTime sampleRate : ℚ)
    (bufferLength startSampleIndex : Nat) : SchedulerState :=
  if bufferLength ≤ startSampleIndex then st
  else
    let newFrameCount := bufferLength - startSampleIndex
    let duration : ℚ := (newFrameCount : ℚ) / sampleRate
    let scheduleTime := max currentTime st.nextStartTime
    { nextStartTime := scheduleTime + duration,
      lastDecodedSample := st.lastDecodedSample,
      sourceNodes := st.sourceNodes ++ [⟨startSampleIndex, newFrameCount, scheduleTime⟩] }

/-- One successful decode iteration of the playChunkedAudio loop: the
freshly decoded buffer has `n` total frames; scheduleNewSegment is
invoked at lastDecodedSample, after which lastDecodedSample is set
to `n`. -/
def decodeStep (st : SchedulerState) (currentTime sampleRate : ℚ) (n : Nat) :
    SchedulerState :=
  let st2 := scheduleNewSegment st currentTime sampleRate n st.lastDecodedSample
  { st2 with lastDecodedSample := n }

/-! ### The base player with heartbeat monitor -/

/-- The decoded audio handle, reduced to its duration in seconds. -/
structure AudioBuffer where
  duration : ℚ
deriving DecidableEq

/-- One output source node: a fresh identifier and the buffer offset at
which it starts playing. -/
structure SourceNode where
  id : Nat
  startOffset : ℚ
deriving DecidableEq

/-- The BasePlayer state.  liveSources tracks every source node that has
been started and neither stopped nor naturally ended, so that the
one-active-handle invariant is a statement, not a modelling artifact. -/
structure PlayerState where
  hasAudioCtx : Bool
  activeSource : Option SourceNode
  liveSources : List SourceNode
  nextId : Nat
  fullAudioBuffer : Option AudioBuffer
  isStopped : Bool
  isDownloading : Bool
  startTime : ℚ
  playedOffset : ℚ
deriving DecidableEq

/-- The BasePlayer constructor state. -/
def initialPlayerState : PlayerState :=
  { hasAudioCtx := false, activeSource := none, liveSources := [], nextId := 0,
    fullAudioBuffer := none, isStopped := true, isDownloading := false,
    startTime := 0, playedOffset := 0 }

/-- BasePlayer.playSourceFrom: bails out when stopped, without decoded
audio, or without an audio context; otherwise stops the previously
active source (silencing and releasing it), creates a fresh source over
the full buffer, starts it at offset `time`, and records it as the
active source. -/
def playSourceFrom (st : PlayerState) (now time : ℚ) : PlayerState :=
  if st.isStopped ∨ st.fullAudioBuffer = none ∨ st.hasAudioCtx = false then st
  else
    let live1 := match st.activeSource with
      | some s => st.liveSources.erase s
      | none => st.liveSources
    let src : SourceNode := ⟨st.nextId, time⟩
    { st with activeSource := some src, liveSources := live1 ++ [src],
              nextId := st.nextId + 1, startTime := now, playedOffset := time }

/-- One tick of the BasePlayer heartbeat monitor.  The progress-report
half only drives the visualizer and does not change player state.  The
auto-resume half: with decoded audio and no active source, if the played
offset is more than the 0.2 second tolerance short of the buffer
duration, playback is revived from the played offset. -/
def monitorTick (st : PlayerState) (now : ℚ) : PlayerState :=
  if st.isStopped then st
  else
    match st.fullAudioBuffer, st.activeSource with
    | some buf, none =>
      if st.playedOffset < buf.duration - 1/5 then
        playSourceFrom st now st.playedOffset
      else st
    | _, _ => st

/-- BasePlayer.seek: clamps the requested time into
[0, duration - 0.1] and restarts playback there. -/
def seekPlayer (st : PlayerState) (now time : ℚ) : PlayerState :=
  match st.fullAudioBuffer with
  | none => st
  | some buf =>
    if st.isStopped then st
    else playSourceFrom st now (max 0 (min time (buf.duration - 1/10)))

/-- The onended handler of the active source: advances playedOffset by
the elapsed output-clock time and clears the active source; the ended
node is no longer live. -/
def sourceEnded (st : PlayerState) (now : ℚ) : PlayerState :=
  if st.isStopped then st
  else
    match st.activeSource with
    | some s =>
      { st with playedOffset := st.playedOffset + (now - st.startTime),
                activeSource := none, liveSources := st.liveSources.erase s }
    | none => st

/-- BasePlayer.stop: aborts the transfer, stops the active source,
closes the audio context and resets the state. -/
def stopPlayer (st : PlayerState) : PlayerState :=
  { st with isStopped := true, isDownloading := false,
            liveSources := (match st.activeSource with
              | some s => st.liveSources.erase s
              | none => st.liveSources),
            activeSource := none, hasAudioCtx := false,
            fullAudioBuffer := none, playedOffset := 0 }

/-- The beginning of BasePlayer.play: clears the stop flag, marks the
download active and initializes the audio context and monitor. -/
def startPlay (st : PlayerState) : PlayerState :=
  { st with isStopped := false, isDownloading := true, hasAudioCtx := true }

/-- A successful decode of the accumulated prefix replaces the full
audio buffer wholesale (StreamPlayer.process and peers). -/
def decodedBuffer (st : PlayerState) (b : AudioBuffer) : PlayerState :=
  if st.isStopped then st else { st with fullAudioBuffer := some b }

/-- The download loop finishing clears the downloading flag. -/
def downloadDone (st : PlayerState) : PlayerState :=
  { st with isDownloading := false }

/-- The events that drive a BasePlayer session. -/
inductive PlayerAction where
  | tick (now : ℚ)
  | seekTo (now time : ℚ)
  | ended (now : ℚ)
  | stop
  | play
  | decoded (b : AudioBuffer)
  | done

/-- Applying one event to the player state. -/
def applyAction (st : PlayerState) : PlayerAction → PlayerState
  | .tick now => monitorTick st now
  | .seekTo now time => seekPlayer st now time
  | .ended now => sourceEnded st now
  | .stop => stopPlayer st
  | .play => startPlay st
  | .decoded b => decodedBuffer st b
  | .done => downloadDone st

/-- Running a session: a sequence of events from the constructor state. -/
def runActions (acts : List PlayerAction) : PlayerState :=
  acts.foldl applyAction initialPlayerState

/-- The one-active-handle invariant: the live sources are exactly the
active one when there is one — with an identifier below the fresh-id
counter — and none otherwise. -/
def OneActive (st : PlayerState) : Prop :=
  (∀ s, st.activeSource = some s → st.liveSources = [s] ∧ s.id < st.nextId) ∧
    (st.activeSource = none → st.liveSources = [])

/-! ### The streaming players -/

/-- The track formats of the playlist. -/
inductive AudioFormat where
  | aiff
  | flac
  | wav
  | mp3
deriving DecidableEq

/-- The steady-state decode cadence threshold (1 MB). -/
def BUFFER_THRESHOLD : Nat := 1024 * 1024

/-- The StreamPlayer initial cadence threshold: 1 MB for the linear-PCM
containers, 256 KB otherwise. -/
def streamInitialThreshold (fmt : AudioFormat) : Nat :=
  if fmt = .wav ∨ fmt = .aiff then 1024 * 1024 else 256 * 1024

/-- decodeAudioData is environment-provided; it is modelled as an oracle
from the (patched) accumulated prefix to the decoded duration, none
meaning the decode attempt rejected. -/
abbrev DecodeOracle := List Nat → Option ℚ

/-- The per-track state touched by StreamPlayer.process. -/
structure StreamState where
  fullAudioBuffer : Option ℚ
  estimatedDuration : ℚ
deriving DecidableEq

/-- How a download loop run ends. -/
inductive LoopOutcome where
  | completed
  | cancelled
  | errored
deriving DecidableEq

/-- StreamPlayer.process: flattens the accumulated chunks, patches the
container sizes in place for AIFF and WAV on non-final passes (a failed
DataView write escapes as an exception, hence the Except), then asks the
decode oracle; on success the buffer is replaced wholesale and the
estimate recomputed, on failure the exception is caught and the state
left unchanged. -/
def StreamPlayer.process (oracle : DecodeOracle) (fmt : AudioFormat)
    (totalFileBytes : Nat) (isStopped : Bool) (st : StreamState)
    (chunks : List (List Nat)) (size : Nat) (isFinal : Bool) :
    Except Unit StreamState :=
  if isStopped then .ok st
  else
    let flat := chunks.flatten
    let patched : Option (List Nat) :=
      if fmt = .aiff ∧ ¬isFinal then AiffHeaderPatcher.patch flat size
      else if fmt = .wav ∧ ¬isFinal then WavHeaderPatcher.patch flat size
      else some flat
    match patched with
    | none => .error ()
    | some pflat =>
      match oracle pflat with
      | some d =>
        .ok { fullAudioBuffer := some d,
              estimatedDuration :=
                if 0 < totalFileBytes ∧ 0 < size then
                  d * ((totalFileBytes : ℚ) / (size : ℚ))
                else d }
      | none => .ok st

/-- The network events seen by the download loop: a chunk arrival, a
transport failure (the read rejects), or the stop flag observed after a
read (cancellation). -/
inductive NetEvent where
  | chunk (bytes : List Nat)
  | fail
  | abort
deriving DecidableEq

/-- The StreamPlayer.play download loop over a sequence of network
events.  Chunks accumulate; once the undecoded tail reaches the cadence
threshold the entire accumulated prefix is reprocessed; the end of the
event list is the end of stream, which triggers one final unconditional
process of any undecoded bytes; a transport failure or a thrown process
exception is caught by the surrounding handler and ends the loop; the
stop flag ends it silently. -/
def StreamPlayer.playLoop (oracle : DecodeOracle) (fmt : AudioFormat)
    (totalFileBytes : Nat) : List NetEvent → List (List Nat) → Nat → Nat →
    Bool → StreamState → LoopOutcome × StreamState
  | [], chunks, totalBytes, lastProcessedBytes, _, st =>
    if lastProcessedBytes < totalBytes then
      match StreamPlayer.process oracle fmt totalFileBytes false st chunks totalBytes true with
      | .ok st2 => (.completed, st2)
      | .error _ => (.errored, st)
    else (.completed, st)
  | .fail :: _, _, _, _, _, st => (.errored, st)
  | .abort :: _, _, _, _, _, st => (.cancelled, st)
  | .chunk v :: rest, chunks, totalBytes, lastProcessedBytes, isFirst, st =>
    let chunks2 := chunks ++ [v]
    let totalBytes2 := totalBytes + v.length
    let newBytes := totalBytes2 - lastProcessedBytes
    let threshold := if isFirst then streamInitialThreshold fmt else BUFFER_THRESHOLD
    if threshold ≤ newBytes then
      match StreamPlayer.process oracle fmt totalFileBytes false st chunks2 totalBytes2 false with
      | .ok st2 =>
        StreamPlayer.playLoop oracle fmt totalFileBytes rest chunks2 totalBytes2
          totalBytes2 false st2
      | .error _ => (.errored, st)
    else
      StreamPlayer.playLoop oracle fmt totalFileBytes rest chunks2 totalBytes2
        lastProcessedBytes isFirst st

/-- GenericPlayer.process: like StreamPlayer.process but patches only
WAV, and on a decode success updates the estimate only under the guards
(leaving it unchanged otherwise); a decode failure is swallowed. -/
def GenericPlayer.process (oracle : DecodeOracle) (fmt : AudioFormat)
    (totalFileBytes : Nat) (isStopped : Bool) (st : StreamState)
    (chunks : List (List Nat)) (size : Nat) (isFinal : Bool) :
    Except Unit StreamState :=
  if isStopped then .ok st
  else
    let flat := chunks.flatten
    let patched : Option (List Nat) :=
      if fmt = .wav ∧ ¬isFinal then WavHeaderPatcher.patch flat size
      else some flat
    match patched with
    | none => .error ()
    | some pflat =>
      match oracle pflat with
      | some d =>
        .ok { fullAudioBuffer := some d,
              estimatedDuration :=
                if 0 < totalFileBytes ∧ 0 < size then
                  d * ((totalFileBytes : ℚ) / (size : ℚ))
                else st.estimatedDuration }
      | none => .ok st

/-! ### The manual AIFF player -/

/-- The per-track state touched by AiffManualPlayer.process.  The
decoded audio handle is reduced to its frame count and sample rate
(its duration being length / sampleRate). -/
structure AiffManualState where
  parser : AiffParser
  fullAudioBuffer : Option (Nat × ℚ)
  estimatedDuration : ℚ
  totalFileBytes : Nat
  isStopped : Bool
deriving DecidableEq

/-- The slice of the accumulated prefix handed to the sample decoder:
from dataOffset up to dataEnd = min(byteLength, dataOffset + dataSize). -/
def audioSlice (p : AiffParser) (flat : List Nat) : List Nat :=
  let dataEnd : Int := min (flat.length : Int) ((p.dataOffset : Int) + p.dataSize)
  (flat.drop p.dataOffset).take (dataEnd - (p.dataOffset : Int)).toNat

/-- The number of frames the manual codec decodes from the accumulated
prefix (the length of the first output plane). -/
def decodedLength (p : AiffParser) (flat : List Nat) : Nat :=
  ((AiffParser.decode p.bitDepth.toNat p.numChannels.toNat (audioSlice p flat)).getD 0 []).length

/-- AiffManualPlayer.process: parse the header if not yet parsed
(returning on failure, a retry condition); then, if bytes extend past
the data offset, decode the available raw samples, and if at least one
frame resulted replace the audio buffer and recompute the estimate as
(totalFileBytes / (bitDepth / 8 * numChannels)) / sampleRate. -/
def AiffManualPlayer.process (st : AiffManualState) (flat : List Nat) :
    AiffManualState :=
  if st.isStopped then st
  else
    let p := AiffParser.parseHeader st.parser flat
    if p.headerParsed = false then { st with parser := p }
    else
      if p.dataOffset < flat.length then
        let len := decodedLength p flat
        if 0 < len then
          { st with parser := p,
                    fullAudioBuffer := some (len, p.sampleRate),
                    estimatedDuration :=
                      ((st.totalFileBytes : ℚ) /
                        ((p.bitDepth : ℚ) / 8 * (p.numChannels : ℚ))) / p.sampleRate }
        else { st with parser := p }
      else { st with parser := p }

/-! ### Claim-side reference semantics

These definitions follow the words of the specification (not the code)
and are compared with the embedded code by refinement theorems. -/

/-- The per-sample semantics stated by the specification: a 16-bit
sample is the big-endian signed 16-bit integer divided by 32768, a
24-bit sample is the three big-endian bytes sign-extended to a signed
24-bit integer divided by 8388608, an 8-bit sample is the signed byte
divided by 128. -/
def sampleSpec (bitDepth : Nat) (b : List Nat) (ptr : Nat) : ℚ :=
  if bitDepth = 16 then
    let v := getUint16BE b ptr
    (((if v < 32768 then (v : Int) else (v : Int) - 65536) : Int) : ℚ) / 32768
  else if bitDepth = 24 then
    let m := getUint8 b ptr * 65536 + getUint8 b (ptr + 1) * 256 + getUint8 b (ptr + 2)
    (((if m < 8388608 then (m : Int) else (m : Int) - 16777216) : Int) : ℚ) / 8388608
  else
    let v := getUint8 b ptr
    (((if v < 128 then (v : Int) else (v : Int) - 256) : Int) : ℚ) / 128

/-- The decoding stated by the specification: exactly
byteLength / (numChannels * (bitDepth / 8)) frames, plane ch holding for
frame i the sample at byte position (i * numChannels + ch) *
(bitDepth / 8). -/
def decodeSpec (bitDepth numChannels : Nat) (raw : List Nat) : List (List ℚ) :=
  let numFrames := raw.length / (numChannels * (bitDepth / 8))
  (List.range numChannels).map
    (fun ch => (List.range numFrames).map
      (fun i => sampleSpec bitDepth raw ((i * numChannels + ch) * (bitDepth / 8))))

/-! ### Concrete test vectors -/

/-- A 30-byte AIFF prefix whose SSND chunk header starts at offset 12. -/
def aiffSample30 : List Nat :=
  [70, 79, 82, 77, 0, 0, 0, 0, 65, 73, 70, 70, 83, 83, 78, 68, 0, 0, 0, 100,
   1, 2, 3, 4, 5, 6, 7, 8, 9, 10]

/-- A 30-byte WAV prefix whose data chunk header starts at offset 12. -/
def wavSample30 : List Nat :=
  [82, 73, 70, 70, 0, 0, 0, 0, 87, 65, 86, 69, 100, 97, 116, 97, 0, 0, 0, 100,
   1, 2, 3, 4, 5, 6, 7, 8, 9, 10]

/-- A 38-byte AIFF prefix with an odd-sized ANNO chunk (size 1, one
payload byte at 20, one pad byte at 21) followed by the SSND chunk at
offset 22 with declared size 100. -/
def aiffOddChunk38 : List Nat :=
  [70, 79, 82, 77, 0, 0, 0, 0, 65, 73, 70, 70,
   65, 78, 78, 79, 0, 0, 0, 1, 7, 0,
   83, 83, 78, 68, 0, 0, 0, 100,
   0, 0, 0, 0, 0, 0, 0, 0]


/-- A complete 62-byte AIFF file: FORM/AIFF header, COMM chunk (1
channel, 4 declared frames, 16 bit, rate field decoding to 32768), SSND
chunk with declared size 2056 (so 2048 raw bytes), and 8 bytes of
sample data (four 16-bit frames) present. -/
def aiffFull62 : List Nat :=
  [70, 79, 82, 77, 0, 0, 0, 0, 65, 73, 70, 70,
   67, 79, 77, 77, 0, 0, 0, 18,
   0, 1, 0, 0, 0, 4, 0, 16,
   64, 15, 128, 0, 0, 0, 0, 0, 0, 0,
   83, 83, 78, 68, 0, 0, 8, 8,
   0, 0, 0, 0, 0, 0, 0, 0,
   64, 0, 64, 0, 64, 0, 64, 0]

end StreamAudio

namespace StreamAudio

/-! ## Theorems -/

/-- Every byte read out of a byte list whose entries are below 256 is
below 256 (out-of-range reads return 0). -/
theorem getUint8_lt (b : List Nat) (hb : ∀ x ∈ b, x < 256) (i : Nat) :
    getUint8 b i < 256 := by
  unfold getUint8
  by_cases h : i < b.length
  · rw [List.getD_eq_getElem b 0 h]
    exact hb _ (List.getElem_mem h)
  · rw [List.getD_eq_default b 0 (by omega)]
    omega

/-- For the supported bit depths the per-sample byte advance of the
decode loop agrees with bitDepth / 8. -/
theorem sampleWidth_eq_div8 (bd : Nat) (h : bd = 8 ∨ bd = 16 ∨ bd = 24) :
    sampleWidth bd = bd / 8 := by
  rcases h with h | h | h <;> subst h <;> rfl

/-- Arithmetic of the 24-bit branch: combining three bytes into the top
of a signed 32-bit integer and arithmetically shifting right by 8 equals
interpreting them as a big-endian signed 24-bit integer. -/
theorem shift24_signed (b1 b2 b3 : Nat) (h1 : b1 < 256) (h2 : b2 < 256)
    (h3 : b3 < 256) :
    (if b1 * 16777216 + b2 * 65536 + b3 * 256 < 2147483648 then
        ((b1 * 16777216 + b2 * 65536 + b3 * 256 : Nat) : Int)
      else ((b1 * 16777216 + b2 * 65536 + b3 * 256 : Nat) : Int) - 4294967296).fdiv 256
      = (if b1 * 65536 + b2 * 256 + b3 < 8388608 then
          ((b1 * 65536 + b2 * 256 + b3 : Nat) : Int)
        else ((b1 * 65536 + b2 * 256 + b3 : Nat) : Int) - 16777216) := by
  have hv : b1 * 16777216 + b2 * 65536 + b3 * 256
      = 256 * (b1 * 65536 + b2 * 256 + b3) := by ring
  rw [hv]
  by_cases hlt : b1 * 65536 + b2 * 256 + b3 < 8388608
  · rw [if_pos (by omega), if_pos hlt]
    push_cast
    rw [Int.mul_fdiv_cancel_left _ (by norm_num)]
  · rw [if_neg (by omega), if_neg hlt]
    have hsplit : ((256 * (b1 * 65536 + b2 * 256 + b3) : Nat) : Int) - 4294967296
        = 256 * (((b1 * 65536 + b2 * 256 + b3 : Nat) : Int) - 16777216) := by
      push_cast; ring
    rw [hsplit, Int.mul_fdiv_cancel_left _ (by norm_num)]

/-- The decode loop body agrees pointwise with the per-sample semantics
of the specification at the supported bit depths, over byte lists. -/
theorem readSample_eq_sampleSpec (bd : Nat) (b : List Nat)
    (hb : ∀ x ∈ b, x < 256) (hbd : bd = 8 ∨ bd = 16 ∨ bd = 24) (ptr : Nat) :
    readSample bd b ptr = sampleSpec bd b ptr := by
  rcases hbd with h | h | h <;> subst h
  · simp [readSample, sampleSpec, getInt8]
  · simp [readSample, sampleSpec, getInt16BE]
  · have h1 := getUint8_lt b hb ptr
    have h2 := getUint8_lt b hb (ptr + 1)
    have h3 := getUint8_lt b hb (ptr + 2)
    simp only [readSample, sampleSpec, show (24 : Nat) ≠ 16 by decide, if_false,
      if_true, reduceIte]
    rw [shift24_signed _ _ _ h1 h2 h3]

/-- The decode loop unrolled: frame i is read at the byte pointer
advanced i times. -/
theorem decodeFrames_eq_range (bd c : Nat) (b : List Nat) :
    ∀ n ptr, decodeFrames bd c b ptr n =
      (List.range n).map
        (fun i => decodeFrame bd c b (ptr + i * (c * sampleWidth bd))) := by
  intro n
  induction n with
  | zero => intro ptr; simp [decodeFrames]
  | succ k ih =>
    intro ptr
    rw [decodeFrames, List.range_succ_eq_map, List.map_cons, List.map_map,
      ih (ptr + c * sampleWidth bd)]
    refine congrArg₂ List.cons (by simp) ?_
    refine List.map_congr_left (fun i _ => ?_)
    simp only [Function.comp_apply, Nat.succ_eq_add_one]
    ring_nf

/-- Reading entry ch of a mapped range below its length. -/
theorem getD_range_map {α : Type} (f : Nat → α) (c ch : Nat) (h : ch < c) (d : α) :
    ((List.range c).map f).getD ch d = f ch := by
  rw [List.getD_eq_getElem?_getD, List.getElem?_map, List.getElem?_range h]
  rfl

/-- The manual PCM decode agrees with the per-sample reference
semantics of the specification. -/
theorem decode_eq_decodeSpec (bd c : Nat) (raw : List Nat)
    (hbd : bd = 8 ∨ bd = 16 ∨ bd = 24) (hc : 0 < c)
    (hbytes : ∀ x ∈ raw, x < 256) :
    AiffParser.decode bd c raw = decodeSpec bd c raw := by
  have hw := sampleWidth_eq_div8 bd hbd
  have hnF : raw.length / (bd / 8) / c = raw.length / (c * (bd / 8)) := by
    rw [Nat.div_div_eq_div_mul, Nat.mul_comm]
  simp only [AiffParser.decode, decodeSpec, hnF]
  refine List.map_congr_left (fun ch hch => ?_)
  have hchlt : ch < c := List.mem_range.mp hch
  rw [decodeFrames_eq_range, List.map_map]
  refine List.map_congr_left (fun i _ => ?_)
  simp only [Function.comp_apply, decodeFrame]
  rw [getD_range_map _ c ch hchlt]
  rw [readSample_eq_sampleSpec bd raw hbytes hbd]
  congr 1
  rw [hw]
  ring

/-- C1: for raw sample bytes and a parsed descriptor at bit depth 16, 24
or 8 with a positive channel count, the manual PCM codec decodes exactly
byteLength / (channels * bitDepth / 8) frames into one sequence per
channel, each 16-bit sample being the big-endian signed 16-bit integer
over 32768, each 24-bit sample the sign-extended three big-endian bytes
over 8388608, each 8-bit sample the signed byte over 128; the 16-bit
sample 16384 and the 8-bit sample 64 both decode to one half. -/
theorem c1_manual_pcm_decode (bd c : Nat) (raw : List Nat)
    (hbd : bd = 8 ∨ bd = 16 ∨ bd = 24) (hc : 0 < c)
    (hbytes : ∀ x ∈ raw, x < 256) :
    AiffParser.decode bd c raw = decodeSpec bd c raw
    ∧ (AiffParser.decode bd c raw).length = c
    ∧ (∀ plane ∈ AiffParser.decode bd c raw,
        plane.length = raw.length / (c * (bd / 8)))
    ∧ AiffParser.decode 16 1 [64, 0] = [[1/2]]
    ∧ AiffParser.decode 8 1 [64] = [[1/2]] := by
  have hmain := decode_eq_decodeSpec bd c raw hbd hc hbytes
  refine ⟨hmain, ?_, ?_,
    by norm_num [AiffParser.decode, decodeFrames, decodeFrame, readSample,
      getInt16BE, getUint16BE, getUint8, sampleWidth, List.range_succ],
    by norm_num [AiffParser.decode, decodeFrames, decodeFrame, readSample,
      getInt8, getUint8, sampleWidth, List.range_succ]⟩
  · rw [hmain]
    simp [decodeSpec]
  · intro plane hpl
    rw [hmain] at hpl
    simp only [decodeSpec, List.mem_map] at hpl
    obtain ⟨ch, _, hcheq⟩ := hpl
    rw [← hcheq]
    simp

/-! ### Byte-write lemmas -/

/-- Setting index i leaves reads at other indices unchanged. -/
theorem getD_set_ne (l : List Nat) (i j v : Nat) (h : i ≠ j) :
    (l.set i v).getD j 0 = l.getD j 0 := by
  rw [List.getD_eq_getElem?_getD, List.getElem?_set_ne h, ← List.getD_eq_getElem?_getD]

/-- Reading back the index just set. -/
theorem getD_set_self (l : List Nat) (i v : Nat) (h : i < l.length) :
    (l.set i v).getD i 0 = v := by
  rw [List.getD_eq_getElem?_getD, List.getElem?_set_self h]
  rfl

/-- ToUint32 lands below 2 ^ 32. -/
theorem toUint32_lt (v : Int) : toUint32 v < 4294967296 := by
  unfold toUint32
  have h1 : 0 ≤ v.emod 4294967296 := Int.emod_nonneg v (by norm_num)
  have h2 : v.emod 4294967296 < 4294967296 := Int.emod_lt_of_pos v (by norm_num)
  omega

/-- ToUint32 is the identity on the values in range. -/
theorem toUint32_of_lt (n : Nat) (h : n < 4294967296) : toUint32 (n : Int) = n := by
  unfold toUint32
  have he : (n : Int).emod 4294967296 = (n : Int) % 4294967296 := rfl
  rw [he]
  omega

/-- The result shape of a successful big-endian 32-bit write. -/
theorem setUint32BE_eq (b : List Nat) (off : Nat) (v : Int)
    (h : off + 4 ≤ b.length) :
    setUint32BE b off v
      = some ((((b.set off (toUint32 v / 16777216 % 256)).set (off + 1)
          (toUint32 v / 65536 % 256)).set (off + 2) (toUint32 v / 256 % 256)).set
          (off + 3) (toUint32 v % 256)) := by
  simp [setUint32BE, h]

/-- The result shape of a successful little-endian 32-bit write. -/
theorem setUint32LE_eq (b : List Nat) (off : Nat) (v : Int)
    (h : off + 4 ≤ b.length) :
    setUint32LE b off v
      = some ((((b.set (off + 3) (toUint32 v / 16777216 % 256)).set (off + 2)
          (toUint32 v / 65536 % 256)).set (off + 1) (toUint32 v / 256 % 256)).set
          off (toUint32 v % 256)) := by
  simp [setUint32LE, h]

/-- A 32-bit write preserves the byte-list length. -/
theorem setUint32BE_length {b r : List Nat} {off : Nat} {v : Int}
    (hr : setUint32BE b off v = some r) : r.length = b.length := by
  unfold setUint32BE at hr
  split at hr
  · simp only [Option.some.injEq] at hr
    subst hr
    simp
  · exact absurd hr (by simp)

/-- A 32-bit write preserves the byte-list length (little-endian). -/
theorem setUint32LE_length {b r : List Nat} {off : Nat} {v : Int}
    (hr : setUint32LE b off v = some r) : r.length = b.length := by
  unfold setUint32LE at hr
  split at hr
  · simp only [Option.some.injEq] at hr
    subst hr
    simp
  · exact absurd hr (by simp)

/-- A 32-bit write changes no byte outside its four positions. -/
theorem setUint32BE_getD_outside {b r : List Nat} {off : Nat} {v : Int}
    (hr : setUint32BE b off v = some r) (j : Nat)
    (hj : j < off ∨ off + 4 ≤ j) : getUint8 r j = getUint8 b j := by
  unfold setUint32BE at hr
  split at hr
  · simp only [Option.some.injEq] at hr
    subst hr
    unfold getUint8
    rw [getD_set_ne _ _ _ _ (by omega), getD_set_ne _ _ _ _ (by omega),
      getD_set_ne _ _ _ _ (by omega), getD_set_ne _ _ _ _ (by omega)]
  · exact absurd hr (by simp)

/-- A 32-bit write changes no byte outside its four positions
(little-endian). -/
theorem setUint32LE_getD_outside {b r : List Nat} {off : Nat} {v : Int}
    (hr : setUint32LE b off v = some r) (j : Nat)
    (hj : j < off ∨ off + 4 ≤ j) : getUint8 r j = getUint8 b j := by
  unfold setUint32LE at hr
  split at hr
  · simp only [Option.some.injEq] at hr
    subst hr
    unfold getUint8
    rw [getD_set_ne _ _ _ _ (by omega), getD_set_ne _ _ _ _ (by omega),
      getD_set_ne _ _ _ _ (by omega), getD_set_ne _ _ _ _ (by omega)]
  · exact absurd hr (by simp)

/-- Reading back a big-endian 32-bit write yields ToUint32 of the
written value. -/
theorem getUint32BE_setUint32BE {b r : List Nat} {off : Nat} {v : Int}
    (hr : setUint32BE b off v = some r) : getUint32BE r off = toUint32 v := by
  have hlen : off + 4 ≤ b.length := by
    by_contra hcon
    unfold setUint32BE at hr
    rw [if_neg hcon] at hr
    exact absurd hr (by simp)
  rw [setUint32BE_eq b off v hlen] at hr
  simp only [Option.some.injEq] at hr
  subst hr
  have hu := toUint32_lt v
  unfold getUint32BE getUint8
  rw [getD_set_ne _ _ _ _ (by omega), getD_set_ne _ _ _ _ (by omega),
    getD_set_ne _ _ _ _ (by omega), getD_set_self _ _ _ (by omega)]
  rw [getD_set_ne _ _ _ _ (by omega), getD_set_ne _ _ _ _ (by omega),
    getD_set_self _ _ _ (by simp only [List.length_set]; omega)]
  rw [getD_set_ne _ _ _ _ (by omega),
    getD_set_self _ _ _ (by simp only [List.length_set]; omega)]
  rw [getD_set_self _ _ _ (by simp only [List.length_set]; omega)]
  omega

/-- Reading back a little-endian 32-bit write yields ToUint32 of the
written value. -/
theorem getUint32LE_setUint32LE {b r : List Nat} {off : Nat} {v : Int}
    (hr : setUint32LE b off v = some r) : getUint32LE r off = toUint32 v := by
  have hlen : off + 4 ≤ b.length := by
    by_contra hcon
    unfold setUint32LE at hr
    rw [if_neg hcon] at hr
    exact absurd hr (by simp)
  rw [setUint32LE_eq b off v hlen] at hr
  simp only [Option.some.injEq] at hr
  subst hr
  have hu := toUint32_lt v
  unfold getUint32LE getUint8
  rw [getD_set_ne _ _ _ _ (by omega),
    getD_set_ne _ _ _ _ (by omega), getD_set_ne _ _ _ _ (by omega),
    getD_set_self _ _ _ (by omega)]
  rw [getD_set_ne _ _ _ _ (by omega), getD_set_ne _ _ _ _ (by omega),
    getD_set_self _ _ _ (by simp only [List.length_set]; omega)]
  rw [getD_set_ne _ _ _ _ (by omega),
    getD_set_self _ _ _ (by simp only [List.length_set]; omega)]
  rw [getD_set_self _ _ _ (by simp only [List.length_set]; omega)]
  omega

/-! ### Chunk-scan lemmas -/

/-- Patcher ascii reads depend only on bytes from their offset on. -/
theorem getAscii_congr {b b2 : List Nat}
    (hsame : ∀ j, 8 ≤ j → getUint8 b2 j = getUint8 b j) (off len : Nat)
    (hoff : 8 ≤ off) : getAscii b2 off len = getAscii b off len := by
  unfold getAscii
  exact List.map_congr_left (fun i _ => hsame (off + i) (by omega))

/-- Big-endian 32-bit reads depend only on bytes from their offset on. -/
theorem getUint32BE_congr {b b2 : List Nat}
    (hsame : ∀ j, 8 ≤ j → getUint8 b2 j = getUint8 b j) (off : Nat)
    (hoff : 8 ≤ off) : getUint32BE b2 off = getUint32BE b off := by
  unfold getUint32BE
  rw [hsame off (by omega), hsame (off + 1) (by omega), hsame (off + 2) (by omega),
    hsame (off + 3) (by omega)]

/-- Little-endian 32-bit reads depend only on bytes from their offset on. -/
theorem getUint32LE_congr {b b2 : List Nat}
    (hsame : ∀ j, 8 ≤ j → getUint8 b2 j = getUint8 b j) (off : Nat)
    (hoff : 8 ≤ off) : getUint32LE b2 off = getUint32LE b off := by
  unfold getUint32LE
  rw [hsame off (by omega), hsame (off + 1) (by omega), hsame (off + 2) (by omega),
    hsame (off + 3) (by omega)]

/-- The AIFF chunk scan is unaffected by rewrites below offset 8 (such
as the outer size write at offset 4). -/
theorem AiffHeaderPatcher.findSSND_congr {b b2 : List Nat}
    (hlen : b2.length = b.length)
    (hsame : ∀ j, 8 ≤ j → getUint8 b2 j = getUint8 b j) :
    ∀ offset, 8 ≤ offset →
      AiffHeaderPatcher.findSSND b2 offset = AiffHeaderPatcher.findSSND b offset := by
  intro offset
  induction offset using AiffHeaderPatcher.findSSND.induct b with
  | case1 off hg hid =>
    intro hoff
    rw [AiffHeaderPatcher.findSSND, AiffHeaderPatcher.findSSND]
    rw [dif_pos (show off < b2.length - 8 by omega), dif_pos hg,
      if_pos (by rw [getAscii_congr hsame off 4 hoff]; exact hid), if_pos hid]
  | case2 off hg cs hid ih =>
    intro hoff
    rw [AiffHeaderPatcher.findSSND, AiffHeaderPatcher.findSSND]
    rw [dif_pos (show off < b2.length - 8 by omega), dif_pos hg,
      if_neg (by rw [getAscii_congr hsame off 4 hoff]; exact hid), if_neg hid,
      getUint32BE_congr hsame (off + 4) (by omega)]
    exact ih (by omega)
  | case3 off hg =>
    intro _
    rw [AiffHeaderPatcher.findSSND, AiffHeaderPatcher.findSSND]
    rw [dif_neg (show ¬off < b2.length - 8 by omega), dif_neg hg]

/-- Where the AIFF chunk scan finds SSND: at or after the start, within
bounds, bearing the SSND id. -/
theorem AiffHeaderPatcher.findSSND_bounds (b : List Nat) :
    ∀ offset o, AiffHeaderPatcher.findSSND b offset = some o →
      offset ≤ o ∧ o < b.length - 8 ∧ getAscii b o 4 = ssndId := by
  intro offset
  induction offset using AiffHeaderPatcher.findSSND.induct b with
  | case1 off hg hid =>
    intro o ho
    rw [AiffHeaderPatcher.findSSND, dif_pos hg, if_pos hid] at ho
    simp only [Option.some.injEq] at ho
    subst ho
    exact ⟨Nat.le_refl _, hg, hid⟩
  | case2 off hg cs hid ih =>
    intro o ho
    rw [AiffHeaderPatcher.findSSND, dif_pos hg, if_neg hid] at ho
    obtain ⟨h1, h2, h3⟩ := ih o ho
    exact ⟨by omega, h2, h3⟩
  | case3 off hg =>
    intro o ho
    rw [AiffHeaderPatcher.findSSND, dif_neg hg] at ho
    cases ho

/-- When the scan finds SSND, the patching loop writes exactly the SSND
size field and stops. -/
theorem aiffPatchLoop_eq_of_find (b : List Nat) (L : Nat) :
    ∀ offset o, AiffHeaderPatcher.findSSND b offset = some o →
      AiffHeaderPatcher.patchLoop b L offset
        = setUint32BE b (o + 4) ((L : Int) - ((o : Int) + 8)) := by
  intro offset
  induction offset using AiffHeaderPatcher.findSSND.induct b with
  | case1 off hg hid =>
    intro o ho
    rw [AiffHeaderPatcher.findSSND, dif_pos hg, if_pos hid] at ho
    simp only [Option.some.injEq] at ho
    subst ho
    rw [AiffHeaderPatcher.patchLoop, dif_pos hg, if_pos hid]
  | case2 off hg cs hid ih =>
    intro o ho
    rw [AiffHeaderPatcher.findSSND, dif_pos hg, if_neg hid] at ho
    rw [AiffHeaderPatcher.patchLoop, dif_pos hg, if_neg hid]
    exact ih o ho
  | case3 off hg =>
    intro o ho
    rw [AiffHeaderPatcher.findSSND, dif_neg hg] at ho
    cases ho

/-- The AIFF patching loop never fails: every write it performs lies
within the view. -/
theorem aiffPatchLoop_isSome (b : List Nat) (L : Nat) :
    ∀ offset, (AiffHeaderPatcher.patchLoop b L offset).isSome := by
  intro offset
  induction offset using AiffHeaderPatcher.patchLoop.induct b L with
  | case1 off hg hid =>
    rw [AiffHeaderPatcher.patchLoop, dif_pos hg, if_pos hid,
      setUint32BE_eq _ _ _ (by omega)]
    rfl
  | case2 off hg cs hid ih =>
    rw [AiffHeaderPatcher.patchLoop, dif_pos hg, if_neg hid]
    exact ih
  | case3 off hg =>
    rw [AiffHeaderPatcher.patchLoop, dif_neg hg]
    rfl

/-- The WAV chunk scan is unaffected by rewrites below offset 8. -/
theorem WavHeaderPatcher.findData_congr {b b2 : List Nat}
    (hlen : b2.length = b.length)
    (hsame : ∀ j, 8 ≤ j → getUint8 b2 j = getUint8 b j) :
    ∀ offset, 8 ≤ offset →
      WavHeaderPatcher.findData b2 offset = WavHeaderPatcher.findData b offset := by
  intro offset
  induction offset using WavHeaderPatcher.findData.induct b with
  | case1 off hg hid =>
    intro hoff
    conv_lhs => rw [WavHeaderPatcher.findData]
    conv_rhs => rw [WavHeaderPatcher.findData]
    rw [dif_pos (show off < b2.length - 8 by omega), dif_pos hg,
      if_pos (by rw [getAscii_congr hsame off 4 hoff]; exact hid), if_pos hid]
  | case2 off hg hid cs ih =>
    intro hoff
    conv_lhs => rw [WavHeaderPatcher.findData]
    conv_rhs => rw [WavHeaderPatcher.findData]
    rw [dif_pos (show off < b2.length - 8 by omega), dif_pos hg,
      if_neg (by rw [getAscii_congr hsame off 4 hoff]; exact hid), if_neg hid,
      getUint32LE_congr hsame (off + 4) (by omega)]
    exact ih (by omega)
  | case3 off hg =>
    intro _
    conv_lhs => rw [WavHeaderPatcher.findData]
    conv_rhs => rw [WavHeaderPatcher.findData]
    rw [dif_neg (show ¬off < b2.length - 8 by omega), dif_neg hg]

/-- Where the WAV chunk scan finds the data chunk. -/
theorem WavHeaderPatcher.findData_bounds (b : List Nat) :
    ∀ offset o, WavHeaderPatcher.findData b offset = some o →
      offset ≤ o ∧ o < b.length - 8 ∧ getAscii b o 4 = dataId := by
  intro offset
  induction offset using WavHeaderPatcher.findData.induct b with
  | case1 off hg hid =>
    intro o ho
    rw [WavHeaderPatcher.findData, dif_pos hg, if_pos hid] at ho
    simp only [Option.some.injEq] at ho
    subst ho
    exact ⟨Nat.le_refl _, hg, hid⟩
  | case2 off hg hid cs ih =>
    intro o ho
    rw [WavHeaderPatcher.findData, dif_pos hg, if_neg hid] at ho
    obtain ⟨h1, h2, h3⟩ := ih o ho
    exact ⟨by omega, h2, h3⟩
  | case3 off hg =>
    intro o ho
    rw [WavHeaderPatcher.findData, dif_neg hg] at ho
    cases ho

/-- When the scan finds the data chunk, the WAV patching loop writes
exactly its size field and stops. -/
theorem wavPatchLoop_eq_of_find (b : List Nat) (L : Nat) :
    ∀ offset o, WavHeaderPatcher.findData b offset = some o →
      WavHeaderPatcher.patchLoop b L offset
        = setUint32LE b (o + 4) ((L : Int) - ((o : Int) + 8)) := by
  intro offset
  induction offset using WavHeaderPatcher.findData.induct b with
  | case1 off hg hid =>
    intro o ho
    rw [WavHeaderPatcher.findData, dif_pos hg, if_pos hid] at ho
    simp only [Option.some.injEq] at ho
    subst ho
    rw [WavHeaderPatcher.patchLoop, dif_pos hg, if_pos hid]
  | case2 off hg hid cs ih =>
    intro o ho
    rw [WavHeaderPatcher.findData, dif_pos hg, if_neg hid] at ho
    rw [WavHeaderPatcher.patchLoop, dif_pos hg, if_neg hid]
    exact ih o ho
  | case3 off hg =>
    intro o ho
    rw [WavHeaderPatcher.findData, dif_neg hg] at ho
    cases ho

/-- The WAV patching loop never fails. -/
theorem wavPatchLoop_isSome (b : List Nat) (L : Nat) :
    ∀ offset, (WavHeaderPatcher.patchLoop b L offset).isSome := by
  intro offset
  induction offset using WavHeaderPatcher.patchLoop.induct b L with
  | case1 off hg hid =>
    rw [WavHeaderPatcher.patchLoop, dif_pos hg, if_pos hid,
      setUint32LE_eq _ _ _ (by omega)]
    rfl
  | case2 off hg hid cs ih =>
    rw [WavHeaderPatcher.patchLoop, dif_pos hg, if_neg hid]
    exact ih
  | case3 off hg =>
    rw [WavHeaderPatcher.patchLoop, dif_neg hg]
    rfl

/-- Reads of a 32-bit big-endian field agree when the four bytes agree. -/
theorem getUint32BE_eq_of_agree {b b2 : List Nat} (off : Nat)
    (h : ∀ j, off ≤ j → j < off + 4 → getUint8 b2 j = getUint8 b j) :
    getUint32BE b2 off = getUint32BE b off := by
  unfold getUint32BE
  rw [h off (by omega) (by omega), h (off + 1) (by omega) (by omega),
    h (off + 2) (by omega) (by omega), h (off + 3) (by omega) (by omega)]

/-- Reads of a 32-bit little-endian field agree when the four bytes
agree. -/
theorem getUint32LE_eq_of_agree {b b2 : List Nat} (off : Nat)
    (h : ∀ j, off ≤ j → j < off + 4 → getUint8 b2 j = getUint8 b j) :
    getUint32LE b2 off = getUint32LE b off := by
  unfold getUint32LE
  rw [h off (by omega) (by omega), h (off + 1) (by omega) (by omega),
    h (off + 2) (by omega) (by omega), h (off + 3) (by omega) (by omega)]

/-- When its chunk scan reaches the SSND chunk, AiffHeaderPatcher.patch
is exactly the outer size write followed by the SSND size write. -/
theorem aiff_patch_of_find (b : List Nat) (o : Nat)
    (hfind : AiffHeaderPatcher.findSSND b 12 = some o) :
    AiffHeaderPatcher.patch b b.length
      = (setUint32BE b 4 ((b.length : Int) - 8)).bind
          (fun b2 => setUint32BE b2 (o + 4) ((b.length : Int) - ((o : Int) + 8))) := by
  obtain ⟨ho12, hob, _⟩ := AiffHeaderPatcher.findSSND_bounds b 12 o hfind
  unfold AiffHeaderPatcher.patch
  cases hset : setUint32BE b 4 ((b.length : Int) - 8) with
  | none =>
    rw [setUint32BE_eq b 4 _ (by omega)] at hset
    cases hset
  | some b2 =>
    have hlen2 : b2.length = b.length := setUint32BE_length hset
    have hsame : ∀ j, 8 ≤ j → getUint8 b2 j = getUint8 b j :=
      fun j hj => setUint32BE_getD_outside hset j (Or.inr (by omega))
    have hfind2 : AiffHeaderPatcher.findSSND b2 12 = some o := by
      rw [AiffHeaderPatcher.findSSND_congr hlen2 hsame 12 (by omega)]
      exact hfind
    simp only [Option.bind_some, Option.some_bind]
    exact aiffPatchLoop_eq_of_find b2 b.length 12 o hfind2

/-- When its chunk scan reaches the data chunk, WavHeaderPatcher.patch
is exactly the outer size write followed by the data size write. -/
theorem wav_patch_of_find (b : List Nat) (o : Nat)
    (hfind : WavHeaderPatcher.findData b 12 = some o) :
    WavHeaderPatcher.patch b b.length
      = (setUint32LE b 4 ((b.length : Int) - 8)).bind
          (fun b2 => setUint32LE b2 (o + 4) ((b.length : Int) - ((o : Int) + 8))) := by
  obtain ⟨ho12, hob, _⟩ := WavHeaderPatcher.findData_bounds b 12 o hfind
  unfold WavHeaderPatcher.patch
  cases hset : setUint32LE b 4 ((b.length : Int) - 8) with
  | none =>
    rw [setUint32LE_eq b 4 _ (by omega)] at hset
    cases hset
  | some b2 =>
    have hlen2 : b2.length = b.length := setUint32LE_length hset
    have hsame : ∀ j, 8 ≤ j → getUint8 b2 j = getUint8 b j :=
      fun j hj => setUint32LE_getD_outside hset j (Or.inr (by omega))
    have hfind2 : WavHeaderPatcher.findData b2 12 = some o := by
      rw [WavHeaderPatcher.findData_congr hlen2 hsame 12 (by omega)]
      exact hfind
    simp only [Option.bind_some, Option.some_bind]
    exact wavPatchLoop_eq_of_find b2 b.length 12 o hfind2

/-- The fields of the patched AIFF prefix read back as the claim
states. -/
theorem aiff_patch_fields (b : List Nat) (o : Nat)
    (hfind : AiffHeaderPatcher.findSSND b 12 = some o)
    (h32 : b.length < 4294967296) :
    ((AiffHeaderPatcher.patch b b.length).getD []).length = b.length
    ∧ getUint32BE ((AiffHeaderPatcher.patch b b.length).getD []) 4 = b.length - 8
    ∧ getUint32BE ((AiffHeaderPatcher.patch b b.length).getD []) (o + 4)
        = b.length - (o + 8) := by
  obtain ⟨ho12, hob, _⟩ := AiffHeaderPatcher.findSSND_bounds b 12 o hfind
  rw [aiff_patch_of_find b o hfind]
  cases hset : setUint32BE b 4 ((b.length : Int) - 8) with
  | none =>
    rw [setUint32BE_eq b 4 _ (by omega)] at hset
    cases hset
  | some b2 =>
    have hlen2 : b2.length = b.length := setUint32BE_length hset
    simp only [Option.bind_some, Option.some_bind]
    cases hset2 : setUint32BE b2 (o + 4) ((b.length : Int) - ((o : Int) + 8)) with
    | none =>
      rw [setUint32BE_eq b2 (o + 4) _ (by omega)] at hset2
      cases hset2
    | some r =>
      have hlenr : r.length = b.length := by
        rw [setUint32BE_length hset2, hlen2]
      simp only [Option.getD_some]
      refine ⟨hlenr, ?_, ?_⟩
      · have hagree : ∀ j, 4 ≤ j → j < 4 + 4 → getUint8 r j = getUint8 b2 j :=
          fun j h1 h2 => setUint32BE_getD_outside hset2 j (Or.inl (by omega))
        rw [getUint32BE_eq_of_agree 4 hagree, getUint32BE_setUint32BE hset]
        have hv : ((b.length : Int) - 8) = ((b.length - 8 : Nat) : Int) := by omega
        rw [hv, toUint32_of_lt _ (by omega)]
      · rw [getUint32BE_setUint32BE hset2]
        have hv : ((b.length : Int) - ((o : Int) + 8))
            = ((b.length - (o + 8) : Nat) : Int) := by omega
        rw [hv, toUint32_of_lt _ (by omega)]

/-- The fields of the patched WAV prefix read back as the claim
states. -/
theorem wav_patch_fields (b : List Nat) (o : Nat)
    (hfind : WavHeaderPatcher.findData b 12 = some o)
    (h32 : b.length < 4294967296) :
    ((WavHeaderPatcher.patch b b.length).getD []).length = b.length
    ∧ getUint32LE ((WavHeaderPatcher.patch b b.length).getD []) 4 = b.length - 8
    ∧ getUint32LE ((WavHeaderPatcher.patch b b.length).getD []) (o + 4)
        = b.length - (o + 8) := by
  obtain ⟨ho12, hob, _⟩ := WavHeaderPatcher.findData_bounds b 12 o hfind
  rw [wav_patch_of_find b o hfind]
  cases hset : setUint32LE b 4 ((b.length : Int) - 8) with
  | none =>
    rw [setUint32LE_eq b 4 _ (by omega)] at hset
    cases hset
  | some b2 =>
    have hlen2 : b2.length = b.length := setUint32LE_length hset
    simp only [Option.bind_some, Option.some_bind]
    cases hset2 : setUint32LE b2 (o + 4) ((b.length : Int) - ((o : Int) + 8)) with
    | none =>
      rw [setUint32LE_eq b2 (o + 4) _ (by omega)] at hset2
      cases hset2
    | some r =>
      have hlenr : r.length = b.length := by
        rw [setUint32LE_length hset2, hlen2]
      simp only [Option.getD_some]
      refine ⟨hlenr, ?_, ?_⟩
      · have hagree : ∀ j, 4 ≤ j → j < 4 + 4 → getUint8 r j = getUint8 b2 j :=
          fun j h1 h2 => setUint32LE_getD_outside hset2 j (Or.inl (by omega))
        rw [getUint32LE_eq_of_agree 4 hagree, getUint32LE_setUint32LE hset]
        have hv : ((b.length : Int) - 8) = ((b.length - 8 : Nat) : Int) := by omega
        rw [hv, toUint32_of_lt _ (by omega)]
      · rw [getUint32LE_setUint32LE hset2]
        have hv : ((b.length : Int) - ((o : Int) + 8))
            = ((b.length - (o + 8) : Nat) : Int) := by omega
        rw [hv, toUint32_of_lt _ (by omega)]

/-- C2: when the chunk scan of the patcher reaches the sample-data
chunk (SSND for AIFF, data for WAV) at offset o in a prefix of length
L, the patch is exactly the outer file-size write of L - 8 at offset 4
followed by the write of L - (o + 8) into the sample-data size field —
big-endian for AIFF, little-endian for WAV — and nothing else (the scan
stops after that write); consequently the patched prefix reports outer
size L - 8 and sample-data length L - sampleDataOffset, where
sampleDataOffset = o + 8 is the offset just after the size field. -/
theorem c2_container_size_patcher (a w : List Nat) (oA oW : Nat)
    (hA : AiffHeaderPatcher.findSSND a 12 = some oA)
    (h32a : a.length < 4294967296)
    (hW : WavHeaderPatcher.findData w 12 = some oW)
    (h32w : w.length < 4294967296) :
    (AiffHeaderPatcher.patch a a.length
        = (setUint32BE a 4 ((a.length : Int) - 8)).bind
            (fun b2 => setUint32BE b2 (oA + 4) ((a.length : Int) - ((oA : Int) + 8)))
      ∧ ((AiffHeaderPatcher.patch a a.length).getD []).length = a.length
      ∧ getUint32BE ((AiffHeaderPatcher.patch a a.length).getD []) 4 = a.length - 8
      ∧ getUint32BE ((AiffHeaderPatcher.patch a a.length).getD []) (oA + 4)
          = a.length - (oA + 8))
    ∧ (WavHeaderPatcher.patch w w.length
        = (setUint32LE w 4 ((w.length : Int) - 8)).bind
            (fun b2 => setUint32LE b2 (oW + 4) ((w.length : Int) - ((oW : Int) + 8)))
      ∧ ((WavHeaderPatcher.patch w w.length).getD []).length = w.length
      ∧ getUint32LE ((WavHeaderPatcher.patch w w.length).getD []) 4 = w.length - 8
      ∧ getUint32LE ((WavHeaderPatcher.patch w w.length).getD []) (oW + 4)
          = w.length - (oW + 8)) := by
  obtain ⟨ha1, ha2, ha3⟩ := aiff_patch_fields a oA hA h32a
  obtain ⟨hw1, hw2, hw3⟩ := wav_patch_fields w oW hW h32w
  exact ⟨⟨aiff_patch_of_find a oA hA, ha1, ha2, ha3⟩,
    ⟨wav_patch_of_find w oW hW, hw1, hw2, hw3⟩⟩

/-- C2 witness: the theorem instantiated at the 30-byte AIFF and WAV
prefixes whose sample-data chunks start at offset 12. -/
theorem c2_container_size_patcher_witness :
    (AiffHeaderPatcher.patch aiffSample30 aiffSample30.length
        = (setUint32BE aiffSample30 4 ((aiffSample30.length : Int) - 8)).bind
            (fun b2 => setUint32BE b2 (12 + 4)
              ((aiffSample30.length : Int) - (((12 : Nat) : Int) + 8)))
      ∧ ((AiffHeaderPatcher.patch aiffSample30 aiffSample30.length).getD []).length
          = aiffSample30.length
      ∧ getUint32BE ((AiffHeaderPatcher.patch aiffSample30 aiffSample30.length).getD []) 4
          = aiffSample30.length - 8
      ∧ getUint32BE
            ((AiffHeaderPatcher.patch aiffSample30 aiffSample30.length).getD []) (12 + 4)
          = aiffSample30.length - (12 + 8))
    ∧ (WavHeaderPatcher.patch wavSample30 wavSample30.length
        = (setUint32LE wavSample30 4 ((wavSample30.length : Int) - 8)).bind
            (fun b2 => setUint32LE b2 (12 + 4)
              ((wavSample30.length : Int) - (((12 : Nat) : Int) + 8)))
      ∧ ((WavHeaderPatcher.patch wavSample30 wavSample30.length).getD []).length
          = wavSample30.length
      ∧ getUint32LE ((WavHeaderPatcher.patch wavSample30 wavSample30.length).getD []) 4
          = wavSample30.length - 8
      ∧ getUint32LE
            ((WavHeaderPatcher.patch wavSample30 wavSample30.length).getD []) (12 + 4)
          = wavSample30.length - (12 + 8)) :=
  c2_container_size_patcher aiffSample30 wavSample30 12 12
    (by rw [AiffHeaderPatcher.findSSND]
        norm_num [aiffSample30, getAscii, getUint8, ssndId, List.range_succ])
    (by norm_num [aiffSample30])
    (by rw [WavHeaderPatcher.findData]
        norm_num [wavSample30, getAscii, getUint8, dataId, List.range_succ])
    (by norm_num [wavSample30])

/-- C7 counterexample: on a 12-byte prefix — far too short to contain
the metadata chunk — the patcher does not leave the bytes unchanged: it
still performs the unconditional outer file-size write at offset 4. -/
theorem c7_short_prefix_counterexample :
    AiffHeaderPatcher.patch [0, 0, 0, 0, 0, 0, 0, 0, 0, 0, 0, 0] 12
      ≠ some [0, 0, 0, 0, 0, 0, 0, 0, 0, 0, 0, 0] := by
  have hset : setUint32BE [0, 0, 0, 0, 0, 0, 0, 0, 0, 0, 0, 0] 4 (((12 : Nat) : Int) - 8)
      = some [0, 0, 0, 0, 0, 0, 0, 4, 0, 0, 0, 0] := by decide
  unfold AiffHeaderPatcher.patch
  rw [hset]
  simp only [Option.some_bind]
  rw [AiffHeaderPatcher.patchLoop, dif_neg (by decide)]
  decide

/-- C7 amended: on a prefix too short for the chunk scan (at most 20
bytes) the patcher does not skip patching: it performs exactly the
unconditional outer file-size write at offset 4 — which fails with a
RangeError when fewer than 8 bytes are present — and the chunk scan
performs no write at all, so no byte beyond offset 7 is touched. -/
theorem c7_short_prefix_amended (b : List Nat) (L : Nat) (h : b.length ≤ 20) :
    AiffHeaderPatcher.patch b L = setUint32BE b 4 ((L : Int) - 8)
    ∧ WavHeaderPatcher.patch b L = setUint32LE b 4 ((L : Int) - 8) := by
  constructor
  · unfold AiffHeaderPatcher.patch
    cases hset : setUint32BE b 4 ((L : Int) - 8) with
    | none => rfl
    | some b2 =>
      simp only [Option.some_bind]
      have hlen2 := setUint32BE_length hset
      rw [AiffHeaderPatcher.patchLoop, dif_neg (by omega)]
  · unfold WavHeaderPatcher.patch
    cases hset : setUint32LE b 4 ((L : Int) - 8) with
    | none => rfl
    | some b2 =>
      simp only [Option.some_bind]
      have hlen2 := setUint32LE_length hset
      rw [WavHeaderPatcher.patchLoop, dif_neg (by omega)]

/-- C7 witness: the amended theorem at the 12-byte zero prefix. -/
theorem c7_short_prefix_amended_witness :
    AiffHeaderPatcher.patch [0, 0, 0, 0, 0, 0, 0, 0, 0, 0, 0, 0] 12
        = setUint32BE [0, 0, 0, 0, 0, 0, 0, 0, 0, 0, 0, 0] 4 ((12 : Int) - 8)
    ∧ WavHeaderPatcher.patch [0, 0, 0, 0, 0, 0, 0, 0, 0, 0, 0, 0] 12
        = setUint32LE [0, 0, 0, 0, 0, 0, 0, 0, 0, 0, 0, 0] 4 ((12 : Int) - 8) :=
  c7_short_prefix_amended [0, 0, 0, 0, 0, 0, 0, 0, 0, 0, 0, 0] 12 (by decide)

/-- C6: the patcher chunk traversal does NOT respect the odd-size pad
byte (the parser does; the patcher advances by 8 + size only).  On a
prefix with an odd-sized chunk before SSND, the SSND chunk truly starts
at the pad-aligned offset 22, but the patcher scan never finds it: the
patch leaves the SSND size field at its original value 100 instead of
prefixLength - sampleDataOffset = 8.  The code contradicts the
specification requirement here. -/
theorem c6_pad_byte_code_bug :
    getAscii aiffOddChunk38 22 4 = ssndId
    ∧ AiffHeaderPatcher.findSSND aiffOddChunk38 12 = none
    ∧ getUint32BE ((AiffHeaderPatcher.patch aiffOddChunk38 38).getD []) (22 + 4) = 100
    ∧ 38 - (22 + 8) ≠ 100 := by
  refine ⟨by decide, ?_, ?_, by decide⟩
  · rw [AiffHeaderPatcher.findSSND, dif_pos (by decide), if_neg (by decide)]
    rw [AiffHeaderPatcher.findSSND, dif_pos (by decide), if_neg (by decide)]
    rw [AiffHeaderPatcher.findSSND, dif_neg (by decide)]
  · have hset : setUint32BE aiffOddChunk38 4 (((38 : Nat) : Int) - 8)
        = some [70, 79, 82, 77, 0, 0, 0, 30, 65, 73, 70, 70,
                65, 78, 78, 79, 0, 0, 0, 1, 7, 0,
                83, 83, 78, 68, 0, 0, 0, 100,
                0, 0, 0, 0, 0, 0, 0, 0] := by decide
    unfold AiffHeaderPatcher.patch
    rw [hset]
    simp only [Option.some_bind]
    rw [AiffHeaderPatcher.patchLoop, dif_pos (by decide), if_neg (by decide)]
    rw [AiffHeaderPatcher.patchLoop, dif_pos (by decide), if_neg (by decide)]
    rw [AiffHeaderPatcher.patchLoop, dif_neg (by decide)]
    decide

/-- C3: the sample-rate decoder weighs the mantissa halves by 2 ^ (-32)
and 2 ^ (-64) instead of 2 ^ (-31) and 2 ^ (-63), dropping the weight
of the explicit integer bit of the 80-bit format.  The standard 10-byte
encodings of 44100 (40 0E AC 44 00...) and 48000 (40 0E BB 80 00...)
therefore decode to exactly half their value, far outside the claimed
1e-6 relative error.  The code contradicts the specification here. -/
theorem c3_extended_decode_code_bug :
    AiffParser.parseExtended [64, 14, 172, 68, 0, 0, 0, 0, 0, 0] 0 = 22050
    ∧ ¬ |AiffParser.parseExtended [64, 14, 172, 68, 0, 0, 0, 0, 0, 0] 0 - 44100|
        ≤ 44100 * (1 / 1000000)
    ∧ AiffParser.parseExtended [64, 14, 187, 128, 0, 0, 0, 0, 0, 0] 0 = 24000 := by
  have h1 : (16398 &&& 32767 : Nat) = 16398 := by decide
  have h2 : (16398 &&& 32768 : Nat) = 0 := by decide
  refine ⟨?_, ?_, ?_⟩
  · norm_num [AiffParser.parseExtended, getUint16BE, getUint32BE, getUint8, h1, h2]
  · norm_num [AiffParser.parseExtended, getUint16BE, getUint32BE, getUint8, h1, h2, abs]
  · norm_num [AiffParser.parseExtended, getUint16BE, getUint32BE, getUint8, h1, h2]

/-- C4: three successful decodes with strictly increasing frame counts
n1 < n2 < n3 schedule exactly the slices [0, n1), [n1, n2), [n2, n3) as
three output units — consecutive units begin where the previous ended,
so no frame is scheduled twice and the total scheduled audio is exactly
n3 frames.  Each unit starts at max(currentTime, nextFreeTime), and
nextFreeTime and lastScheduledFrame are updated to scheduleTime +
duration and to the decoded frame count; hence whenever scheduling keeps
pace (the call time does not exceed the previous nextFreeTime) the max
collapses to the end of the previous unit and playback is gap-free. -/
theorem c4_differential_scheduling (n1 n2 n3 : Nat) (t1 t2 t3 r : ℚ)
    (h1 : 0 < n1) (h12 : n1 < n2) (h23 : n2 < n3) :
    ((decodeStep (decodeStep (decodeStep initialSchedulerState t1 r n1) t2 r n2)
        t3 r n3).sourceNodes.map (fun u => (u.startFrame, u.frameCount)))
        = [(0, n1), (n1, n2 - n1), (n2, n3 - n2)]
    ∧ ((decodeStep (decodeStep (decodeStep initialSchedulerState t1 r n1) t2 r n2)
        t3 r n3).sourceNodes.map ScheduledUnit.frameCount).sum = n3
    ∧ ((decodeStep (decodeStep (decodeStep initialSchedulerState t1 r n1) t2 r n2)
        t3 r n3).sourceNodes.map ScheduledUnit.scheduleTime)
        = [max t1 0,
           max t2 (max t1 0 + (n1 : ℚ) / r),
           max t3 (max t2 (max t1 0 + (n1 : ℚ) / r) + ((n2 - n1 : Nat) : ℚ) / r)]
    ∧ (decodeStep (decodeStep (decodeStep initialSchedulerState t1 r n1) t2 r n2)
        t3 r n3).nextStartTime
        = max t3 (max t2 (max t1 0 + (n1 : ℚ) / r) + ((n2 - n1 : Nat) : ℚ) / r)
          + ((n3 - n2 : Nat) : ℚ) / r
    ∧ (decodeStep (decodeStep (decodeStep initialSchedulerState t1 r n1) t2 r n2)
        t3 r n3).lastDecodedSample = n3 := by
  have hstate : decodeStep (decodeStep (decodeStep initialSchedulerState t1 r n1)
      t2 r n2) t3 r n3
      = { nextStartTime := max t3 (max t2 (max t1 0 + (n1 : ℚ) / r)
            + ((n2 - n1 : Nat) : ℚ) / r) + ((n3 - n2 : Nat) : ℚ) / r,
          lastDecodedSample := n3,
          sourceNodes := [⟨0, n1, max t1 0⟩,
            ⟨n1, n2 - n1, max t2 (max t1 0 + (n1 : ℚ) / r)⟩,
            ⟨n2, n3 - n2, max t3 (max t2 (max t1 0 + (n1 : ℚ) / r)
              + ((n2 - n1 : Nat) : ℚ) / r)⟩] } := by
    have c1 : ¬(n1 ≤ 0) := by omega
    have c2 : ¬(n2 ≤ n1) := by omega
    have c3 : ¬(n3 ≤ n2) := by omega
    simp [decodeStep, scheduleNewSegment, initialSchedulerState, c1, c2, c3]
  rw [hstate]
  refine ⟨by simp, ?_, by simp, rfl, rfl⟩
  simp only [List.map_cons, List.map_nil, List.sum_cons, List.sum_nil]
  omega

/-- C4 witness: the theorem at frame counts 1 < 2 < 3, call times 0 and
unit sample rate. -/
theorem c4_differential_scheduling_witness :
    ((decodeStep (decodeStep (decodeStep initialSchedulerState 0 1 1) 0 1 2)
        0 1 3).sourceNodes.map (fun u => (u.startFrame, u.frameCount)))
        = [(0, 1), (1, 2 - 1), (2, 3 - 2)]
    ∧ ((decodeStep (decodeStep (decodeStep initialSchedulerState 0 1 1) 0 1 2)
        0 1 3).sourceNodes.map ScheduledUnit.frameCount).sum = 3
    ∧ ((decodeStep (decodeStep (decodeStep initialSchedulerState 0 1 1) 0 1 2)
        0 1 3).sourceNodes.map ScheduledUnit.scheduleTime)
        = [max 0 0,
           max 0 (max 0 0 + ((1 : Nat) : ℚ) / 1),
           max 0 (max 0 (max 0 0 + ((1 : Nat) : ℚ) / 1) + ((2 - 1 : Nat) : ℚ) / 1)]
    ∧ (decodeStep (decodeStep (decodeStep initialSchedulerState 0 1 1) 0 1 2)
        0 1 3).nextStartTime
        = max 0 (max 0 (max 0 0 + ((1 : Nat) : ℚ) / 1) + ((2 - 1 : Nat) : ℚ) / 1)
          + ((3 - 2 : Nat) : ℚ) / 1
    ∧ (decodeStep (decodeStep (decodeStep initialSchedulerState 0 1 1) 0 1 2)
        0 1 3).lastDecodedSample = 3 :=
  c4_differential_scheduling 1 2 3 0 0 0 1 (by decide) (by decide) (by decide)

/-- C5: whenever decoded audio exists, no output unit is active, the
player is not stopped (with a live audio context) and the played offset
is more than the 0.2 second tolerance short of the decoded duration,
one heartbeat tick starts a new active output unit playing from exactly
the played offset (start time the current clock, offset preserved);
and whenever the played offset is within the tolerance of the full
duration and downloading has finished, a tick changes nothing. -/
theorem c5_heartbeat_monitor (s1 s2 : PlayerState) (now1 now2 : ℚ)
    (b1 b2 : AudioBuffer)
    (hb1 : s1.fullAudioBuffer = some b1)
    (hactive : s1.activeSource = none)
    (hstop : s1.isStopped = false)
    (hctx : s1.hasAudioCtx = true)
    (hshort : s1.playedOffset < b1.duration - 1/5)
    (hb2 : s2.fullAudioBuffer = some b2)
    (hnear : b2.duration - 1/5 ≤ s2.playedOffset)
    (hdl : s2.isDownloading = false) :
    (monitorTick s1 now1).activeSource = some ⟨s1.nextId, s1.playedOffset⟩
    ∧ (monitorTick s1 now1).playedOffset = s1.playedOffset
    ∧ (monitorTick s1 now1).startTime = now1
    ∧ monitorTick s2 now2 = s2 := by
  have hmt : monitorTick s1 now1 = playSourceFrom s1 now1 s1.playedOffset := by
    unfold monitorTick
    rw [hstop, hb1, hactive]
    show (if s1.playedOffset < b1.duration - 1/5
        then playSourceFrom s1 now1 s1.playedOffset else s1)
      = playSourceFrom s1 now1 s1.playedOffset
    rw [if_pos hshort]
  have hps : playSourceFrom s1 now1 s1.playedOffset
      = { s1 with activeSource := some ⟨s1.nextId, s1.playedOffset⟩,
                  liveSources := s1.liveSources ++ [⟨s1.nextId, s1.playedOffset⟩],
                  nextId := s1.nextId + 1, startTime := now1,
                  playedOffset := s1.playedOffset } := by
    unfold playSourceFrom
    rw [if_neg (by simp [hstop, hb1, hctx]), hactive]
  have hidle : monitorTick s2 now2 = s2 := by
    by_cases hs : s2.isStopped
    · simp [monitorTick, hs]
    · cases hac : s2.activeSource with
      | none =>
        unfold monitorTick
        rw [if_neg (by simp [hs]), hb2, hac]
        show (if s2.playedOffset < b2.duration - 1/5
            then playSourceFrom s2 now2 s2.playedOffset else s2) = s2
        rw [if_neg (not_lt.mpr hnear)]
      | some s => simp [monitorTick, hs, hb2, hac]
  rw [hmt, hps]
  exact ⟨rfl, rfl, rfl, hidle⟩

/-- C5 witness: a stalled state at offset 1 of a 10 second buffer is
revived; a state at offset 10 of a 10 second buffer is left alone. -/
theorem c5_heartbeat_monitor_witness :
    (monitorTick ⟨true, none, [], 0, some ⟨10⟩, false, true, 0, 1⟩ 3).activeSource
        = some ⟨0, 1⟩
    ∧ (monitorTick ⟨true, none, [], 0, some ⟨10⟩, false, true, 0, 1⟩ 3).playedOffset = 1
    ∧ (monitorTick ⟨true, none, [], 0, some ⟨10⟩, false, true, 0, 1⟩ 3).startTime = 3
    ∧ monitorTick ⟨true, none, [], 0, some ⟨10⟩, false, false, 0, 10⟩ 3
        = ⟨true, none, [], 0, some ⟨10⟩, false, false, 0, 10⟩ :=
  c5_heartbeat_monitor ⟨true, none, [], 0, some ⟨10⟩, false, true, 0, 1⟩
    ⟨true, none, [], 0, some ⟨10⟩, false, false, 0, 10⟩ 3 3 ⟨10⟩ ⟨10⟩
    rfl rfl rfl rfl (by norm_num) rfl (by norm_num) rfl


theorem oneActive_playSourceFrom (st : PlayerState) (now t : ℚ) (h : OneActive st) :
    OneActive (playSourceFrom st now t) := by
  unfold playSourceFrom
  split
  · exact h
  · cases hac : st.activeSource with
    | some s =>
      obtain ⟨hl, hid⟩ := h.1 s hac
      dsimp only
      refine ⟨?_, ?_⟩
      · intro s2 hs2
        injection hs2 with hs2
        subst hs2
        rw [hl]
        exact ⟨by simp, by simp⟩
      · intro hn
        simp at hn
    | none =>
      have hl : st.liveSources = [] := h.2 hac
      dsimp only
      refine ⟨?_, ?_⟩
      · intro s2 hs2
        injection hs2 with hs2
        subst hs2
        rw [hl]
        exact ⟨by simp, by simp⟩
      · intro hn
        simp at hn


theorem oneActive_apply (st : PlayerState) (a : PlayerAction) (h : OneActive st) :
    OneActive (applyAction st a) := by
  cases a with
  | tick now =>
    show OneActive (monitorTick st now)
    unfold monitorTick
    split
    · exact h
    · split
      · split
        · exact oneActive_playSourceFrom _ _ _ h
        · exact h
      · exact h
  | seekTo now t =>
    show OneActive (seekPlayer st now t)
    unfold seekPlayer
    split
    · exact h
    · split
      · exact h
      · exact oneActive_playSourceFrom _ _ _ h
  | ended now =>
    show OneActive (sourceEnded st now)
    unfold sourceEnded
    split
    · exact h
    · cases hac : st.activeSource with
      | some s =>
        obtain ⟨hl, hid⟩ := h.1 s hac
        dsimp only
        refine ⟨?_, fun _ => ?_⟩
        · intro s2 hs2
          simp at hs2
        · rw [hl]
          simp
      | none => exact h
  | stop =>
    show OneActive (stopPlayer st)
    unfold stopPlayer
    cases hac : st.activeSource with
    | some s =>
      obtain ⟨hl, hid⟩ := h.1 s hac
      dsimp only
      refine ⟨?_, fun _ => ?_⟩
      · intro s2 hs2
        simp at hs2
      · rw [hl]
        simp
    | none =>
      have hl := h.2 hac
      dsimp only
      refine ⟨?_, fun _ => hl⟩
      · intro s2 hs2
        simp at hs2
  | play => exact h
  | decoded b =>
    show OneActive (decodedBuffer st b)
    unfold decodedBuffer
    split
    · exact h
    · exact ⟨h.1, h.2⟩
  | done => exact h

theorem oneActive_initial : OneActive initialPlayerState := by
  refine ⟨?_, fun _ => rfl⟩
  intro s hs
  simp [initialPlayerState] at hs

theorem oneActive_run (acts : List PlayerAction) : OneActive (runActions acts) := by
  unfold runActions
  have hgen : ∀ (l : List PlayerAction) (st : PlayerState),
      OneActive st → OneActive (l.foldl applyAction st) := by
    intro l
    induction l with
    | nil => intro st h; exact h
    | cons a rest ih => intro st h; exact ih _ (oneActive_apply st a h)
  exact hgen acts initialPlayerState oneActive_initial


/-- C10 counterexample: the differential scheduler of the chunked
prototype does not silence previous output units — after two appends
two scheduled source nodes coexist, so more than one active output
handle exists at a time. -/
theorem c10_one_active_counterexample :
    (decodeStep (decodeStep initialSchedulerState 0 1 1) 0 1 2).sourceNodes.length = 2
    ∧ ¬(decodeStep (decodeStep initialSchedulerState 0 1 1) 0 1 2).sourceNodes.length ≤ 1 := by
  have c1 : ¬((1 : Nat) ≤ 0) := by omega
  have c2 : ¬((2 : Nat) ≤ 1) := by omega
  constructor
  · simp [decodeStep, scheduleNewSegment, initialSchedulerState, c1, c2]
  · simp [decodeStep, scheduleNewSegment, initialSchedulerState, c1, c2]

/-- C10 amended: in the BasePlayer sessions (full-buffer restart
scheduling driven by heartbeat revival, seek and natural unit end), at
most one active output handle exists in every reachable state, and
every restart first silences and releases the previously active source:
after playSourceFrom the live sources are exactly the one fresh node
and the previous active source is gone.  The differential scheduler of
the chunked prototype, by contrast, appends output units without
stopping previous ones (see the counterexample). -/
theorem c10_one_active_amended (acts : List PlayerAction) (st : PlayerState)
    (now t : ℚ) (s : SourceNode) (b : AudioBuffer)
    (hOA : OneActive st) (hstop : st.isStopped = false)
    (hbuf : st.fullAudioBuffer = some b) (hctx : st.hasAudioCtx = true)
    (hact : st.activeSource = some s) :
    OneActive (runActions acts)
    ∧ (playSourceFrom st now t).activeSource = some ⟨st.nextId, t⟩
    ∧ (playSourceFrom st now t).liveSources = [⟨st.nextId, t⟩]
    ∧ s ∉ (playSourceFrom st now t).liveSources := by
  obtain ⟨hl, hid⟩ := hOA.1 s hact
  have hps : playSourceFrom st now t
      = { st with activeSource := some ⟨st.nextId, t⟩,
                  liveSources := [⟨st.nextId, t⟩],
                  nextId := st.nextId + 1, startTime := now, playedOffset := t } := by
    unfold playSourceFrom
    rw [if_neg (by simp [hstop, hbuf, hctx]), hact, hl]
    simp
  refine ⟨oneActive_run acts, by rw [hps], by rw [hps], ?_⟩
  rw [hps]
  intro hmem
  simp only [List.mem_singleton] at hmem
  rw [hmem] at hid
  simp at hid

/-- C10 witness: the amended theorem at the empty action list and a
state with active source id 0, fresh-id counter 1 and a 10 second
buffer. -/
theorem c10_one_active_amended_witness :
    OneActive (runActions [])
    ∧ (playSourceFrom ⟨true, some ⟨0, 0⟩, [⟨0, 0⟩], 1, some ⟨10⟩, false, true, 0, 0⟩
        2 5).activeSource = some ⟨1, 5⟩
    ∧ (playSourceFrom ⟨true, some ⟨0, 0⟩, [⟨0, 0⟩], 1, some ⟨10⟩, false, true, 0, 0⟩
        2 5).liveSources = [⟨1, 5⟩]
    ∧ (⟨0, 0⟩ : SourceNode)
        ∉ (playSourceFrom ⟨true, some ⟨0, 0⟩, [⟨0, 0⟩], 1, some ⟨10⟩, false, true, 0, 0⟩
            2 5).liveSources :=
  c10_one_active_amended [] ⟨true, some ⟨0, 0⟩, [⟨0, 0⟩], 1, some ⟨10⟩, false, true, 0, 0⟩
    2 5 ⟨0, 0⟩ ⟨10⟩
    ⟨fun s2 hs2 => by injection hs2 with h2; subst h2; exact ⟨rfl, by norm_num⟩,
      fun hn => by simp at hn⟩
    rfl rfl rfl rfl


/-- The AIFF patch never throws on a prefix of at least 8 bytes. -/
theorem aiffPatch_isSome (b : List Nat) (L : Nat) (h : 8 ≤ b.length) :
    (AiffHeaderPatcher.patch b L).isSome := by
  unfold AiffHeaderPatcher.patch
  rw [setUint32BE_eq b 4 _ (by omega)]
  simp only [Option.some_bind]
  exact aiffPatchLoop_isSome _ _ _

/-- The WAV patch never throws on a prefix of at least 8 bytes. -/
theorem wavPatch_isSome (b : List Nat) (L : Nat) (h : 8 ≤ b.length) :
    (WavHeaderPatcher.patch b L).isSome := by
  unfold WavHeaderPatcher.patch
  rw [setUint32LE_eq b 4 _ (by omega)]
  simp only [Option.some_bind]
  exact wavPatchLoop_isSome _ _ _

/-- StreamPlayer.process never throws when the accumulated prefix holds
at least 8 bytes or on the final (unpatched) pass. -/
theorem StreamPlayer.process_ok (oracle : DecodeOracle) (fmt : AudioFormat)
    (tfb : Nat) (stopped : Bool) (st : StreamState) (chunks : List (List Nat))
    (size : Nat) (isFinal : Bool)
    (h : 8 ≤ (chunks.flatten).length ∨ isFinal = true) :
    ∃ st2, StreamPlayer.process oracle fmt tfb stopped st chunks size isFinal
      = .ok st2 := by
  unfold StreamPlayer.process
  split
  · exact ⟨st, rfl⟩
  · dsimp only
    have hpatched : (if fmt = .aiff ∧ ¬isFinal = true then
        AiffHeaderPatcher.patch chunks.flatten size
      else if fmt = .wav ∧ ¬isFinal = true then
        WavHeaderPatcher.patch chunks.flatten size
      else some chunks.flatten).isSome := by
      split
      · next hc =>
        refine aiffPatch_isSome _ _ ?_
        rcases h with h | h
        · exact h
        · exact absurd h hc.2
      · split
        · next hc =>
          refine wavPatch_isSome _ _ ?_
          rcases h with h | h
          · exact h
          · exact absurd h hc.2
        · simp
    obtain ⟨p, hp⟩ := Option.isSome_iff_exists.mp hpatched
    rw [hp]
    dsimp only
    cases horacle : oracle p with
    | some d => exact ⟨_, rfl⟩
    | none => exact ⟨st, rfl⟩

/-- Both cadence thresholds are at least 8 bytes. -/
theorem streamThreshold_ge8 (fmt : AudioFormat) (isFirst : Bool) :
    8 ≤ if isFirst then streamInitialThreshold fmt else BUFFER_THRESHOLD := by
  unfold streamInitialThreshold BUFFER_THRESHOLD
  split
  · split <;> norm_num
  · norm_num

/-- The download loop completes over any event sequence free of
transport failures and aborts, whatever the decode oracle does: decode
failures and patching never end the loop early. -/
theorem StreamPlayer.playLoop_completes (oracle : DecodeOracle) (fmt : AudioFormat)
    (tfb : Nat) :
    ∀ (events : List NetEvent) (chunks : List (List Nat))
      (totalBytes lastProcessedBytes : Nat) (isFirst : Bool) (st : StreamState),
      (∀ e ∈ events, e ≠ .fail ∧ e ≠ .abort) →
      totalBytes = (chunks.flatten).length →
      (StreamPlayer.playLoop oracle fmt tfb events chunks totalBytes
        lastProcessedBytes isFirst st).1 = .completed := by
  intro events
  induction events with
  | nil =>
    intro chunks totalBytes lastProcessedBytes isFirst st hev htb
    unfold StreamPlayer.playLoop
    split
    · obtain ⟨st2, hok⟩ :=
        StreamPlayer.process_ok oracle fmt tfb false st chunks totalBytes true (Or.inr rfl)
      rw [hok]
    · rfl
  | cons e rest ih =>
    intro chunks totalBytes lastProcessedBytes isFirst st hev htb
    have hrest : ∀ x ∈ rest, x ≠ NetEvent.fail ∧ x ≠ NetEvent.abort :=
      fun x hx => hev x (List.mem_cons_of_mem e hx)
    cases e with
    | fail => exact absurd rfl (hev .fail (List.mem_cons_self _ _)).1
    | abort => exact absurd rfl (hev .abort (List.mem_cons_self _ _)).2
    | chunk v =>
      unfold StreamPlayer.playLoop
      dsimp only
      have htb2 : totalBytes + v.length = ((chunks ++ [v]).flatten).length := by
        simp [List.flatten_append, htb]
      by_cases hth : (if isFirst = true then streamInitialThreshold fmt
          else BUFFER_THRESHOLD) ≤ totalBytes + v.length - lastProcessedBytes
      · rw [if_pos hth]
        have h8 : 8 ≤ ((chunks ++ [v]).flatten).length := by
          have hge := streamThreshold_ge8 fmt isFirst
          omega
        obtain ⟨st2, hok⟩ := StreamPlayer.process_ok oracle fmt tfb false st
          (chunks ++ [v]) (totalBytes + v.length) false (Or.inl h8)
        rw [hok]
        exact ih (chunks ++ [v]) (totalBytes + v.length) (totalBytes + v.length)
          false st2 hrest htb2
      · rw [if_neg hth]
        exact ih (chunks ++ [v]) (totalBytes + v.length) lastProcessedBytes
          isFirst st hrest htb2

/-- C8: a failed decode attempt is contained within its cadence step —
the step returns with the previously decoded buffer and estimate
unchanged (atomic on error) and no exception — and the download loop
runs to completion over any event sequence free of transport failures
and cancellation, whatever the decode oracle answers; each cadence
trigger re-submits the entire accumulated prefix, so the same
prefix-plus-new-bytes is re-attempted at the next trigger.  Only a
transport failure event or an abort ends the loop early. -/
theorem c8_decode_error_containment (oracle1 : DecodeOracle) (fmt1 : AudioFormat)
    (tfb1 : Nat) (events : List NetEvent) (oracle2 : DecodeOracle)
    (fmt2 : AudioFormat) (tfb2 : Nat) (stopped : Bool) (st : StreamState)
    (chunks : List (List Nat)) (size : Nat) (isFinal : Bool)
    (hev : ∀ e ∈ events, e ≠ .fail ∧ e ≠ .abort)
    (hfail : ∀ bytes, oracle2 bytes = none)
    (hlen : 8 ≤ (chunks.flatten).length) :
    (StreamPlayer.playLoop oracle1 fmt1 tfb1 events [] 0 0 true ⟨none, 0⟩).1
        = .completed
    ∧ StreamPlayer.process oracle2 fmt2 tfb2 stopped st chunks size isFinal
        = .ok st := by
  refine ⟨StreamPlayer.playLoop_completes oracle1 fmt1 tfb1 events [] 0 0 true
    ⟨none, 0⟩ hev rfl, ?_⟩
  unfold StreamPlayer.process
  split
  · rfl
  · dsimp only
    have hpatched : (if fmt2 = .aiff ∧ ¬isFinal = true then
        AiffHeaderPatcher.patch chunks.flatten size
      else if fmt2 = .wav ∧ ¬isFinal = true then
        WavHeaderPatcher.patch chunks.flatten size
      else some chunks.flatten).isSome := by
      split
      · exact aiffPatch_isSome _ _ hlen
      · split
        · exact wavPatch_isSome _ _ hlen
        · simp
    obtain ⟨p, hp⟩ := Option.isSome_iff_exists.mp hpatched
    rw [hp]
    dsimp only
    rw [hfail p]

/-- C8 witness: a one-chunk event stream with an always-failing decode
oracle completes, and a failing process step on an 8-byte prefix leaves
the state (buffer duration 5, estimate 7) unchanged. -/
theorem c8_decode_error_containment_witness :
    (StreamPlayer.playLoop (fun _ => none) .mp3 0 [.chunk [0, 0, 0]] [] 0 0 true
        ⟨none, 0⟩).1 = .completed
    ∧ StreamPlayer.process (fun _ => none) .aiff 100 false ⟨some 5, 7⟩
        [[0, 0, 0, 0, 0, 0, 0, 0]] 8 false = .ok ⟨some 5, 7⟩ :=
  c8_decode_error_containment (fun _ => none) .mp3 0 [.chunk [0, 0, 0]]
    (fun _ => none) .aiff 100 false ⟨some 5, 7⟩ [[0, 0, 0, 0, 0, 0, 0, 0]] 8 false
    (by decide) (fun _ => rfl) (by decide)

/-- The descriptor parsed from the 62-byte AIFF test file. -/
theorem parseHeader_aiffFull62 : AiffParser.parseHeader AiffParser.init aiffFull62
    = { headerParsed := true, numChannels := 1, sampleRate := 32768,
        bitDepth := 16, dataOffset := 54, dataSize := 2048, frameSize := 2 } := by
  have h1 : (16399 &&& 32767 : Nat) = 16399 := by decide
  have h2 : (16399 &&& 32768 : Nat) = 0 := by decide
  rw [AiffParser.parseHeader]
  rw [if_neg (by decide), if_neg (by decide), if_neg (by decide)]
  rw [AiffParser.parseHeaderLoop]
  norm_num [aiffFull62, getAsciiF, getUint8, getUint32BE, getInt16BE, getUint16BE,
    AiffParser.parseExtended, commId, ssndId, AiffParser.init, List.range_succ, h1, h2]
  rw [AiffParser.parseHeaderLoop]
  norm_num [aiffFull62, getAsciiF, getUint8, getUint32BE, getInt16BE, getUint16BE,
    AiffParser.parseExtended, commId, ssndId, List.range_succ, h1, h2]

/-- C9 counterexample: on the 62-byte AIFF prefix (declared total
length 2102 bytes), the manual AIFF path decodes 4 frames at rate 32768
(decoded duration 4 / 32768) but sets the estimate to 1051 / 32768 =
(2102 / (2 * 1)) / 32768, not decodedDuration * (totalFileBytes /
bytesDecodedSoFar) = (4 / 32768) * (2102 / 62). -/
theorem c9_estimated_duration_counterexample :
    (AiffManualPlayer.process ⟨AiffParser.init, none, 0, 2102, false⟩
        aiffFull62).fullAudioBuffer = some (4, 32768)
    ∧ (AiffManualPlayer.process ⟨AiffParser.init, none, 0, 2102, false⟩
        aiffFull62).estimatedDuration = 1051 / 32768
    ∧ (1051 / 32768 : ℚ) ≠ ((4 : ℚ) / 32768) * ((2102 : ℚ) / 62) := by
  have hproc : AiffManualPlayer.process ⟨AiffParser.init, none, 0, 2102, false⟩ aiffFull62
      = { parser :=
            { headerParsed := true, numChannels := 1, sampleRate := 32768,
              bitDepth := 16, dataOffset := 54, dataSize := 2048, frameSize := 2 },
          fullAudioBuffer := some (4, 32768),
          estimatedDuration := ((2102 : ℚ) / (((16 : Int) : ℚ) / 8 * ((1 : Int) : ℚ))) / 32768,
          totalFileBytes := 2102, isStopped := false } := by
    unfold AiffManualPlayer.process
    rw [if_neg (by decide)]
    dsimp only
    rw [parseHeader_aiffFull62]
    rw [if_neg (by decide), if_pos (by decide), if_pos (by decide)]
    have hlen4 : decodedLength
        { headerParsed := true, numChannels := 1, sampleRate := 32768,
          bitDepth := 16, dataOffset := 54, dataSize := 2048, frameSize := 2 }
        aiffFull62 = 4 := by decide
    dsimp only
    norm_num [hlen4]
  refine ⟨by rw [hproc], by rw [hproc]; norm_num, by norm_num⟩

/-- C9 amended: after a successful decode of a prefix of size
bytesDecodedSoFar, StreamPlayer and GenericPlayer recompute the
estimate as decodedDuration * (totalFileBytes / bytesDecodedSoFar) when
both totalFileBytes and the size are positive (on a zero guard
StreamPlayer falls back to the decoded duration and GenericPlayer
leaves the estimate unchanged); the manual AIFF path instead sets the
estimate to (totalFileBytes / (bitDepth / 8 * numChannels)) /
sampleRate, which is not the claimed formula. -/
theorem c9_estimated_duration_amended (oracle : DecodeOracle) (fmt : AudioFormat)
    (tfb : Nat) (st : StreamState) (chunks : List (List Nat)) (size : Nat)
    (isFinal : Bool) (d : ℚ) (st3 : AiffManualState) (flat : List Nat)
    (horacle : ∀ bytes, oracle bytes = some d)
    (hlen : 8 ≤ (chunks.flatten).length)
    (hstop : st3.isStopped = false)
    (hparsed : (AiffParser.parseHeader st3.parser flat).headerParsed = true)
    (hdo : (AiffParser.parseHeader st3.parser flat).dataOffset < flat.length)
    (hdl : 0 < decodedLength (AiffParser.parseHeader st3.parser flat) flat) :
    StreamPlayer.process oracle fmt tfb false st chunks size isFinal
        = .ok ⟨some d, if 0 < tfb ∧ 0 < size then d * ((tfb : ℚ) / (size : ℚ)) else d⟩
    ∧ GenericPlayer.process oracle fmt tfb false st chunks size isFinal
        = .ok ⟨some d, if 0 < tfb ∧ 0 < size then d * ((tfb : ℚ) / (size : ℚ))
            else st.estimatedDuration⟩
    ∧ (AiffManualPlayer.process st3 flat).estimatedDuration
        = ((st3.totalFileBytes : ℚ) /
            (((AiffParser.parseHeader st3.parser flat).bitDepth : ℚ) / 8
              * ((AiffParser.parseHeader st3.parser flat).numChannels : ℚ)))
          / (AiffParser.parseHeader st3.parser flat).sampleRate
    ∧ (AiffManualPlayer.process st3 flat).fullAudioBuffer
        = some (decodedLength (AiffParser.parseHeader st3.parser flat) flat,
            (AiffParser.parseHeader st3.parser flat).sampleRate) := by
  refine ⟨?_, ?_, ?_, ?_⟩
  · unfold StreamPlayer.process
    rw [if_neg (by simp)]
    dsimp only
    have hpatched : (if fmt = .aiff ∧ ¬isFinal = true then
        AiffHeaderPatcher.patch chunks.flatten size
      else if fmt = .wav ∧ ¬isFinal = true then
        WavHeaderPatcher.patch chunks.flatten size
      else some chunks.flatten).isSome := by
      split
      · exact aiffPatch_isSome _ _ hlen
      · split
        · exact wavPatch_isSome _ _ hlen
        · simp
    obtain ⟨p, hp⟩ := Option.isSome_iff_exists.mp hpatched
    rw [hp]
    dsimp only
    rw [horacle p]
  · unfold GenericPlayer.process
    rw [if_neg (by simp)]
    dsimp only
    have hpatched : (if fmt = .wav ∧ ¬isFinal = true then
        WavHeaderPatcher.patch chunks.flatten size
      else some chunks.flatten).isSome := by
      split
      · exact wavPatch_isSome _ _ hlen
      · simp
    obtain ⟨p, hp⟩ := Option.isSome_iff_exists.mp hpatched
    rw [hp]
    dsimp only
    rw [horacle p]
  · unfold AiffManualPlayer.process
    rw [if_neg (by simp [hstop])]
    dsimp only
    rw [if_neg (by simp [hparsed]), if_pos hdo, if_pos hdl]
  · unfold AiffManualPlayer.process
    rw [if_neg (by simp [hstop])]
    dsimp only
    rw [if_neg (by simp [hparsed]), if_pos hdo, if_pos hdl]

/-- C9 witness: the amended theorem at an always-succeeding decode of
duration 5 over an 8-byte WAV prefix with 100 declared bytes, and the
62-byte AIFF file with 2102 declared bytes. -/
theorem c9_estimated_duration_amended_witness :
    StreamPlayer.process (fun _ => some 5) .wav 100 false ⟨none, 0⟩
        [[0, 0, 0, 0, 0, 0, 0, 0]] 8 false
        = .ok ⟨some 5, if 0 < 100 ∧ 0 < 8 then
            (5 : ℚ) * (((100 : Nat) : ℚ) / ((8 : Nat) : ℚ)) else 5⟩
    ∧ GenericPlayer.process (fun _ => some 5) .wav 100 false ⟨none, 0⟩
        [[0, 0, 0, 0, 0, 0, 0, 0]] 8 false
        = .ok ⟨some 5, if 0 < 100 ∧ 0 < 8 then
            (5 : ℚ) * (((100 : Nat) : ℚ) / ((8 : Nat) : ℚ))
            else (⟨none, 0⟩ : StreamState).estimatedDuration⟩
    ∧ (AiffManualPlayer.process ⟨AiffParser.init, none, 0, 2102, false⟩
        aiffFull62).estimatedDuration
        = ((((⟨AiffParser.init, none, 0, 2102, false⟩ : AiffManualState).totalFileBytes : Nat) : ℚ) /
            (((AiffParser.parseHeader AiffParser.init aiffFull62).bitDepth : ℚ) / 8
              * ((AiffParser.parseHeader AiffParser.init aiffFull62).numChannels : ℚ)))
          / (AiffParser.parseHeader AiffParser.init aiffFull62).sampleRate
    ∧ (AiffManualPlayer.process ⟨AiffParser.init, none, 0, 2102, false⟩
        aiffFull62).fullAudioBuffer
        = some (decodedLength (AiffParser.parseHeader AiffParser.init aiffFull62) aiffFull62,
            (AiffParser.parseHeader AiffParser.init aiffFull62).sampleRate) :=
  c9_estimated_duration_amended (fun _ => some 5) .wav 100 ⟨none, 0⟩
    [[0, 0, 0, 0, 0, 0, 0, 0]] 8 false 5 ⟨AiffParser.init, none, 0, 2102, false⟩
    aiffFull62 (fun _ => rfl) (by decide) rfl
    (by rw [parseHeader_aiffFull62])
    (by rw [parseHeader_aiffFull62]; decide)
    (by rw [parseHeader_aiffFull62]; decide)

/-- C1 witness: the theorem instantiated at 16-bit mono input [64, 0]. -/
theorem c1_manual_pcm_decode_witness :
    AiffParser.decode 16 1 [64, 0] = decodeSpec 16 1 [64, 0]
    ∧ (AiffParser.decode 16 1 [64, 0]).length = 1
    ∧ (∀ plane ∈ AiffParser.decode 16 1 [64, 0],
        plane.length = [64, 0].length / (1 * (16 / 8)))
    ∧ AiffParser.decode 16 1 [64, 0] = [[1/2]]
    ∧ AiffParser.decode 8 1 [64] = [[1/2]] :=
  c1_manual_pcm_decode 16 1 [64, 0] (by decide) (by decide) (by decide)

end StreamAudio
